import Mathlib

/-!
# Employee / department record store and payroll computation

A shallow embedding of `manage_employee.c`: the two global arrays with their
counters become a `Store`, every menu operation becomes a function on stores
that receives the values the prompts would have read, and `calculateSalary`
becomes a function on naturals with the machine arithmetic made explicit.

Conventions.

* `uint64_t` arithmetic is arithmetic on `Nat` reduced modulo `2 ^ 64`.
* A C `int` is 32 bits wide in two's complement.
* `float` and `double` are IEEE 754 binary32 and binary64, every operation is
  rounded once to the precision of its type with round-to-nearest-even, and a
  finite non-negative floating-point value is kept exactly as `mant * 2 ^ exp`.
* An access outside an array and an out-of-range conversion from floating
  point to `uint64_t` are undefined in C; the functions return `none` there.
* A library function that is called without a declaration in scope is
  implicitly declared to return `int`: the caller reads the low 32 bits of what
  the function returns, as a two's complement number.
-/

namespace ManageEmployee

/-! ## Definitions (`manage_employee.c`, lines 34-66) -/

/-- Maximum number of employees that can be handled. -/
def MAX_EMPLOYEES : Nat := 100

/-- Maximum number of departments that can be handled. -/
def MAX_DEPARTMENTS : Nat := 50

/-- A finite, non-negative floating-point value, `mant * 2 ^ exp`. -/
structure FloatValue where
  mant : Nat
  exp : Int
deriving DecidableEq, Repr

/-- The comparison `a < b` of two floating-point values. -/
def FloatValue.lt (a b : FloatValue) : Bool :=
  let e := min a.exp b.exp
  decide (a.mant * 2 ^ (a.exp - e).toNat < b.mant * 2 ^ (b.exp - e).toNat)

/-- The value is a finite binary32 number: 24 bits of significand, exponent
of the last place between `-149` and `104`. -/
def FloatValue.isBinary32 (a : FloatValue) : Prop :=
  a.mant < 2 ^ 24 ∧ -149 ≤ a.exp ∧ a.exp ≤ 104

instance (a : FloatValue) : Decidable a.isBinary32 := by
  unfold FloatValue.isBinary32
  infer_instance

/-- The record `Employee_t`. Strings stand for the NUL-terminated character
arrays, naturals for the unsigned integer fields. -/
structure Employee where
  id : String
  name : String
  salary_base : Nat
  working_days : Nat
  department_id : String
  working_performance : FloatValue
  bonus : Nat
  late_coming_days : Nat
deriving DecidableEq, Repr

/-- The record `Department_t`. -/
structure Department where
  id : String
  bonus_salary : Nat
deriving DecidableEq, Repr

/-- The fields of an employee fit their C types, and the values are ones the
prompts of `addEmployee` accept: non-empty identifiers and name, a working
performance greater than zero. -/
def Employee.wellFormed (e : Employee) : Prop :=
  e.id ≠ "" ∧ e.name ≠ "" ∧ e.department_id ≠ "" ∧
  e.salary_base < 2 ^ 64 ∧ e.working_days < 2 ^ 16 ∧
  e.working_performance.isBinary32 ∧ 0 < e.working_performance.mant ∧
  e.bonus < 2 ^ 64 ∧ e.late_coming_days < 2 ^ 16

instance (e : Employee) : Decidable e.wellFormed := by
  unfold Employee.wellFormed
  infer_instance

/-- An element of a zero-initialised global array of employees. -/
def zeroEmployee : Employee :=
  { id := "", name := "", salary_base := 0, working_days := 0, department_id := "",
    working_performance := { mant := 0, exp := 0 }, bonus := 0, late_coming_days := 0 }

/-! ## Variables (`manage_employee.c`, lines 78-81) -/

/-- The global state. `employees_arr` holds the slots of the C array below
`total_employees` and `departments_arr` those below `total_departments`, so the
two counters are the lengths of these lists. `employees_tail` holds the slots
of the employee array from index `total_employees` on, as far as an earlier
operation has written them; every slot after those still has its initial value
`zeroEmployee`. -/
structure Store where
  employees_arr : List Employee
  employees_tail : List Employee
  departments_arr : List Department
deriving DecidableEq, Repr

/-- The counter `total_employees`. -/
def Store.total_employees (s : Store) : Nat := s.employees_arr.length

/-- The counter `total_departments`. -/
def Store.total_departments (s : Store) : Nat := s.departments_arr.length

/-- The state at program start: both counters are zero, the arrays zeroed. -/
def emptyStore : Store :=
  { employees_arr := [], employees_tail := [], departments_arr := [] }

/-- The content of `employees_arr[i]` in the C array, whatever the counter. -/
def Store.slot (s : Store) (i : Nat) : Employee :=
  (s.employees_arr ++ s.employees_tail).getD i zeroEmployee

/-! ## showEmployees (lines 120-173) -/

/-- The inner loop of the sort (lines 137-145) for a fixed `i`: `x` is the
current `employees_arr[i]`, the list holds `employees_arr[j]`, `employees_arr[j+1]`,
... up to the last employee. When `employees_arr[i]` has the smaller working
performance the two slots are exchanged. Returns the final `employees_arr[i]`
and the final content of the slots after it. -/
def sortInner : Employee → List Employee → Employee × List Employee
  | x, [] => (x, [])
  | x, y :: ys =>
    if x.working_performance.lt y.working_performance then
      ((sortInner y ys).1, x :: (sortInner y ys).2)
    else
      ((sortInner x ys).1, y :: (sortInner x ys).2)

/-- The outer loop of the sort (lines 135-146): the first argument counts the
iterations that remain, the list holds the slots from index `i` on. -/
def sortOuter : Nat → List Employee → List Employee
  | 0, l => l
  | _ + 1, [] => []
  | n + 1, x :: xs => (sortInner x xs).1 :: sortOuter n (sortInner x xs).2

/-- The operation `showEmployees`: with no employee nothing is changed (and
nothing is listed); otherwise the array is sorted in place by the
`total_employees - 1` iterations of the outer loop and its rows are printed in
the resulting order. -/
def showEmployees (s : Store) : Store :=
  if s.total_employees = 0 then s
  else { s with employees_arr := sortOuter (s.total_employees - 1) s.employees_arr }

/-! ## addEmployee (lines 215-512) -/

/-- How one pass through `addEmployee` ends. -/
inductive AddOutcome where
  /-- "ID already exists!!!": the identifier is asked for again. -/
  | idExists
  /-- "Added new employee ...", no department prompt. -/
  | addedEmployee
  /-- "Created new department ..." after the employee was added. -/
  | createdDepartment
deriving DecidableEq, Repr

/-- The flag `id_exists` after the loop of lines 244-256. -/
def id_exists (id : String) : List Employee → Bool
  | [] => false
  | e :: es => if id = e.id then true else id_exists id es

/-- The flag `department_id_exists` after the loop of lines 454-464, run over
the slots it reads: it starts at 1 and is cleared at the first slot whose
`department_id` differs from the new employee's. -/
def department_id_exists (department_id : String) : List Employee → Bool
  | [] => true
  | e :: es => if department_id ≠ e.department_id then false
               else department_id_exists department_id es

/-- The slots `employees_arr[0]`, ..., `employees_arr[n - 1]` of the C array. -/
def Store.slots (s : Store) (n : Nat) : List Employee :=
  (List.range n).map s.slot

/-- The operation `addEmployee` for one entered employee; `bonus_salary` is the
department bonus that is read when the department prompt appears. The
identifier check comes first; then the employee is written to
`employees_arr[total_employees]`; then the loop of lines 454-464 runs over the
first `total_departments` slots of the employee array and the department record
is written when the flag is cleared or there is no department. -/
def addEmployee (s : Store) (newEmployee : Employee) (bonus_salary : Nat) :
    Option (AddOutcome × Store) :=
  if id_exists newEmployee.id s.employees_arr then some (AddOutcome.idExists, s)
  else if MAX_EMPLOYEES ≤ s.total_employees then none
  else
    let s1 : Store :=
      { s with employees_arr := s.employees_arr ++ [newEmployee],
               employees_tail := s.employees_tail.tail }
    if department_id_exists newEmployee.department_id (s1.slots s.total_departments) = false
        ∨ s.total_departments = 0 then
      if MAX_DEPARTMENTS ≤ s.total_departments then none
      else some (AddOutcome.createdDepartment,
        { s1 with departments_arr :=
            s1.departments_arr ++ [{ id := newEmployee.department_id,
                                     bonus_salary := bonus_salary }] })
    else some (AddOutcome.addedEmployee, s1)

/-! ## deleteEmployee (lines 522-594) -/

/-- How `deleteEmployee` ends. -/
inductive DeleteEmployeeOutcome where
  /-- "No employee to delete!!!" -/
  | noEmployee
  /-- "Deleted successfully . . ." -/
  | deleted
  /-- "No employee has ID ..." -/
  | notFound
deriving DecidableEq, Repr

/-- The loop of lines 558-580 on the slots below `total_employees`: at the
first employee with the identifier the later ones are shifted down by one and
the loop is left; `none` when the loop ends without a match. -/
def shiftOutEmployee (id : String) : List Employee → Option (List Employee)
  | [] => none
  | e :: es =>
    if id = e.id then some es
    else (shiftOutEmployee id es).map (fun r => e :: r)

/-- The operation `deleteEmployee`. The shift leaves the slot of the former
last employee as it was, now above the counter. -/
def deleteEmployee (s : Store) (id_to_Delete : String) : DeleteEmployeeOutcome × Store :=
  if s.total_employees = 0 then (DeleteEmployeeOutcome.noEmployee, s)
  else
    match shiftOutEmployee id_to_Delete s.employees_arr with
    | some es =>
      (DeleteEmployeeOutcome.deleted,
        { s with employees_arr := es,
                 employees_tail := s.employees_arr.getLastD zeroEmployee :: s.employees_tail })
    | none => (DeleteEmployeeOutcome.notFound, s)

/-! ## deleteDepartment (lines 604-709) -/

/-- How `deleteDepartment` ends. -/
inductive DeleteDepartmentOutcome where
  /-- "No department to delete!!!" -/
  | noDepartment
  /-- "Deleted department successfully ..." -/
  | deleted
  /-- "You cannot delete a department that has employees" -/
  | hasEmployees
  /-- "No department has ID ..." -/
  | notFound
deriving DecidableEq, Repr

/-- The loop of lines 648-665: some employee has this department identifier. -/
def employee_in_department (department_id : String) : List Employee → Bool
  | [] => false
  | e :: es => if department_id = e.department_id then true
               else employee_in_department department_id es

/-- The flags and the array at the end of the loop of lines 642-689. -/
structure DepartmentScan where
  found : Bool
  employee_exist : Bool
  departments : List Department
deriving DecidableEq, Repr

/-- The loop of lines 642-689 from index `i` on, the list holding the slots
`departments_arr[i]`, ... below `total_departments`. A matching department with
an employee sets both flags and leaves the loop. A matching department without
one is shifted out and the counter decremented; the loop then goes on with
`i + 1`, so that the department that moved into slot `i` is not examined. -/
def scanDepartments (id : String) (emps : List Employee) : List Department → DepartmentScan
  | [] => { found := false, employee_exist := false, departments := [] }
  | d :: ds =>
    if id = d.id then
      if employee_in_department d.id emps then
        { found := true, employee_exist := true, departments := d :: ds }
      else
        match ds with
        | [] => { found := true, employee_exist := false, departments := [] }
        | d1 :: ds1 =>
          { found := true,
            employee_exist := (scanDepartments id emps ds1).employee_exist,
            departments := d1 :: (scanDepartments id emps ds1).departments }
    else
      { found := (scanDepartments id emps ds).found,
        employee_exist := (scanDepartments id emps ds).employee_exist,
        departments := d :: (scanDepartments id emps ds).departments }

/-- The operation `deleteDepartment`. -/
def deleteDepartment (s : Store) (idDepartment_to_Delete : String) :
    DeleteDepartmentOutcome × Store :=
  if s.total_departments = 0 then (DeleteDepartmentOutcome.noDepartment, s)
  else
    let r := scanDepartments idDepartment_to_Delete s.employees_arr s.departments_arr
    let s1 : Store := { s with departments_arr := r.departments }
    if r.found = true ∧ r.employee_exist = false then (DeleteDepartmentOutcome.deleted, s1)
    else if r.found = true ∧ r.employee_exist = true then
      (DeleteDepartmentOutcome.hasEmployees, s1)
    else (DeleteDepartmentOutcome.notFound, s1)

/-! ## Reachable states -/

/-- The stores the program can be in: the start state and every state that
`addEmployee`, `deleteEmployee`, `deleteDepartment` or `showEmployees` produces
from a reachable one. -/
inductive Reachable : Store → Prop where
  | start : Reachable emptyStore
  | add {s s1 : Store} {o : AddOutcome} (e : Employee) (bonus_salary : Nat) :
      Reachable s → addEmployee s e bonus_salary = some (o, s1) → Reachable s1
  | delEmployee {s : Store} (id : String) :
      Reachable s → Reachable (deleteEmployee s id).2
  | delDepartment {s : Store} (id : String) :
      Reachable s → Reachable (deleteDepartment s id).2
  | showAll {s : Store} : Reachable s → Reachable (showEmployees s)

/-! ## Machine arithmetic -/

/-- Addition of two `uint64_t` values. -/
def add64 (a b : Nat) : Nat := (a + b) % 2 ^ 64

/-- Subtraction of two `uint64_t` values. -/
def sub64 (a b : Nat) : Nat := (a % 2 ^ 64 + (2 ^ 64 - b % 2 ^ 64)) % 2 ^ 64

/-- Multiplication of two `uint64_t` values. -/
def mul64 (a b : Nat) : Nat := (a * b) % 2 ^ 64

/-- The value of a 32-bit two's complement `int` with the given bits. -/
def wrapInt32 (x : Int) : Int := (x + 2 ^ 31) % 2 ^ 32 - 2 ^ 31

/-- Multiplication of two `int` values. -/
def mulInt32 (a b : Int) : Int := wrapInt32 (a * b)

/-- Conversion of an `int` to `uint64_t`. -/
def int32ToUInt64 (x : Int) : Nat := (x % 2 ^ 64).toNat

/-- Number of binary digits of `n`; the first argument bounds the number of
halvings and `n` itself is always enough. -/
def bitLengthAux : Nat → Nat → Nat
  | 0, _ => 0
  | fuel + 1, n => if n = 0 then 0 else bitLengthAux fuel (n / 2) + 1

/-- Number of binary digits of `n`. -/
def bitLength (n : Nat) : Nat := bitLengthAux n n

/-- Round-to-nearest-even of the natural number `n` to `p` significant binary
digits: the lowest `bitLength n - p` digits are dropped, the result goes up
when they are more than half a unit of the last kept digit, and on a tie the
kept part is made even. -/
def roundToPrecision (p n : Nat) : Nat :=
  let s := bitLength n - p
  let q := n / 2 ^ s
  let r := n % 2 ^ s
  if 2 * r < 2 ^ s then q * 2 ^ s
  else if 2 ^ s < 2 * r then (q + 1) * 2 ^ s
  else if q % 2 = 0 then q * 2 ^ s
  else (q + 1) * 2 ^ s

/-- The product `x * c` in a floating-point type with `p` significant digits,
for a `uint64_t` value `x` and a floating-point value `c` of that type: `x` is
converted to the type (rounded to `p` digits) and the exact product is rounded
to `p` digits. -/
def mulRound (p x : Nat) (c : FloatValue) : FloatValue :=
  { mant := roundToPrecision p (roundToPrecision p x * c.mant), exp := c.exp }

/-- The integral part of a floating-point value. -/
def FloatValue.trunc (a : FloatValue) : Nat :=
  if 0 ≤ a.exp then a.mant * 2 ^ a.exp.toNat else a.mant / 2 ^ (-a.exp).toNat

/-- Conversion of a floating-point value to `uint64_t`: the integral part,
undefined when it does not fit. -/
def FloatValue.toUInt64 (a : FloatValue) : Option Nat :=
  if a.trunc < 2 ^ 64 then some a.trunc else none

/-- The `double` constant `0.895`: the binary64 number nearest to 895/1000. -/
def double_0_895 : FloatValue := { mant := 8061443332993188, exp := -53 }

/-- The `double` constant `0.05`: the binary64 number nearest to 5/100. -/
def double_0_05 : FloatValue := { mant := 7205759403792794, exp := -57 }

/-- The `double` constant `0.1`: the binary64 number nearest to 1/10. -/
def double_0_1 : FloatValue := { mant := 7205759403792794, exp := -56 }

/-! ## calculateSalary (lines 759-820) -/

/-- The loop of lines 772-780: the variable starts at 0 and takes the bonus of
every department whose identifier matches, so the last match stays. -/
def bonus_department (department_id : String) (departments : List Department) : Nat :=
  departments.foldl
    (fun acc d => if department_id = d.id then d.bonus_salary else acc) 0

/-- Lines 784-791: the product is computed in `int` and stored in a
`uint64_t`. -/
def late_coming_penalty (late_coming_days : Nat) : Nat :=
  if late_coming_days ≤ 3 then int32ToUInt64 (mulInt32 late_coming_days 10000)
  else int32ToUInt64 (mulInt32 late_coming_days 20000)

/-- Line 794: the `uint64_t` product of base salary and working days is
multiplied by the working performance in `float` and converted back. -/
def income_without_bonus (e : Employee) : Option Nat :=
  (mulRound 24 (mul64 e.salary_base e.working_days) e.working_performance).toUInt64

/-- Line 796, all in `uint64_t`. -/
def total_income (income_without_bonus bonus bonus_department late_coming_penalty : Nat) :
    Nat :=
  sub64 (add64 (add64 income_without_bonus bonus) bonus_department) late_coming_penalty

/-- Line 798: the product with `0.895` in `double`, converted to `uint64_t`.
The product is below `2 ^ 64`, so the conversion is defined. -/
def totalIncome_without_tax (total_income : Nat) : Nat :=
  (mulRound 53 total_income double_0_895).trunc

/-- Lines 802-814, as a function of `totalIncome_without_tax`. -/
def tax (totalIncome_without_tax : Nat) : Nat :=
  if 0 < totalIncome_without_tax ∧ totalIncome_without_tax ≤ 11000000 then 0
  else if 11000000 < totalIncome_without_tax ∧ totalIncome_without_tax ≤ 16000000 then
    (mulRound 53 totalIncome_without_tax double_0_05).trunc
  else (mulRound 53 totalIncome_without_tax double_0_1).trunc

/-- The function `calculateSalary` for an employee, in a given store. -/
def calculateSalary (s : Store) (Employee_param : Employee) : Option Nat :=
  match income_without_bonus Employee_param with
  | none => none
  | some income =>
    let total := total_income income Employee_param.bonus
      (bonus_department Employee_param.department_id s.departments_arr)
      (late_coming_penalty Employee_param.late_coming_days)
    let without_tax := totalIncome_without_tax total
    some (sub64 without_tax (tax without_tax))

/-! ## input_handler.c -/

/-- The C library call `sprintf(numStr, "%llu", number)`: the decimal digits
of the number, most significant first, "0" for zero. -/
def sprintf_llu (number : Nat) : List Char := Nat.toDigits 10 number

/-- The loop of `formatNumberWithCommas` (lines 88-98 of `input_handler.c`)
from index `i` on, the list holding `numStr[i]`, `numStr[i + 1]`, ...: a comma
is written before the digit when `i > 0` and `(numLen - i) % 3 == 0`. -/
def formatLoop (numLen : Nat) : Nat → List Char → List Char
  | _, [] => []
  | i, c :: cs =>
    if 0 < i ∧ (numLen - i) % 3 = 0 then ',' :: c :: formatLoop numLen (i + 1) cs
    else c :: formatLoop numLen (i + 1) cs

/-- The function `formatNumberWithCommas`: the content of `formattedStr`. -/
def formatNumberWithCommas (number : Nat) : String :=
  String.mk (formatLoop (sprintf_llu number).length 0 (sprintf_llu number))

/-- The C library call `strcspn(str, reject)` for a one-character `reject`:
the number of characters before the first occurrence of that character, the
length of the string when there is none. -/
def strcspn (str : List Char) (reject : Char) : Nat :=
  (str.takeWhile (fun c => c ≠ reject)).length

/-- The function `isStringEmpty`: the value returned and the content of the
buffer afterwards. `str[strcspn(str, "\n")] = 0` cuts the string at its first
newline, `str[strcspn(str, " ")] = 0` at its first space. The function has a
`return` statement only for length zero; otherwise control reaches the closing
brace of a non-void function and no value is returned (`none`). -/
def isStringEmpty (str : String) : Option Nat × String :=
  let s1 := str.data.take (strcspn str.data '\n')
  let s2 := s1.take (strcspn s1 ' ')
  if s2.length = 0 then (some 1, String.mk s2) else (none, String.mk s2)

/-- The C library predicate `isspace` in the "C" locale. -/
def isspace (c : Char) : Bool :=
  c = ' ' || c = '\t' || c = '\n' || c = '\x0b' || c = '\x0c' || c = '\r'

/-- The white space that `strtoll` and `strtoull` skip first. -/
def skipSpace : List Char → List Char
  | [] => []
  | c :: cs => if isspace c then skipSpace cs else c :: cs

/-- The decimal digits at the start of a string: their value on top of `acc`
and what follows them. -/
def scanDigits : Nat → List Char → Nat × List Char
  | acc, [] => (acc, [])
  | acc, c :: cs =>
    if c.isDigit then scanDigits (acc * 10 + (c.toNat - '0'.toNat)) cs
    else (acc, c :: cs)

/-- What `strtoll` and `strtoull` read in base 10: the sign, the value of the
digits, and the rest of the string, to which `end` points. Without a digit
after the optional sign nothing is converted and `end` is the string itself. -/
structure Scanned where
  negative : Bool
  magnitude : Nat
  rest : List Char
deriving DecidableEq, Repr

/-- The subject sequence of `strtoll` and `strtoull` in base 10: white space,
an optional sign, decimal digits. -/
def scanInteger (s : List Char) : Scanned :=
  match skipSpace s with
  | '-' :: c :: cs =>
    if c.isDigit then
      { negative := true, magnitude := (scanDigits 0 (c :: cs)).1,
        rest := (scanDigits 0 (c :: cs)).2 }
    else { negative := false, magnitude := 0, rest := s }
  | '+' :: c :: cs =>
    if c.isDigit then
      { negative := false, magnitude := (scanDigits 0 (c :: cs)).1,
        rest := (scanDigits 0 (c :: cs)).2 }
    else { negative := false, magnitude := 0, rest := s }
  | c :: cs =>
    if c.isDigit then
      { negative := false, magnitude := (scanDigits 0 (c :: cs)).1,
        rest := (scanDigits 0 (c :: cs)).2 }
    else { negative := false, magnitude := 0, rest := s }
  | [] => { negative := false, magnitude := 0, rest := s }

/-- The C library call `strtoll(s, &end, 10)` with a 64-bit `long long`: the
value, clamped to the range of the type, and the string `end` points to. -/
def strtoll (s : List Char) : Int × List Char :=
  let r := scanInteger s
  (if r.negative then max (-(r.magnitude : Int)) (-(2 ^ 63))
   else min (r.magnitude : Int) (2 ^ 63 - 1), r.rest)

/-- The C library call `strtoull(s, &end, 10)` with a 64-bit `unsigned long
long`: a value out of range gives the largest value of the type, a minus sign
negates in the unsigned type. -/
def strtoull (s : List Char) : Nat × List Char :=
  let r := scanInteger s
  (if 2 ^ 64 ≤ r.magnitude then 2 ^ 64 - 1
   else if r.negative then (2 ^ 64 - r.magnitude) % 2 ^ 64
   else r.magnitude, r.rest)

/-- The function `isWholeNumber`. Neither `input_handler.h` nor
`input_handler.c` includes `<stdlib.h>`, so `strtoll` and `strtoull` are
implicitly declared to return `int`: `num` is the low 32 bits of the result of
`strtoll`, converted from `int` to `int64_t`, and in `num != strtoull(...)` it
is compared with the low 32 bits of the result of `strtoull`, converted from
`int` in the same way. The pointer `end` is written by `strtoll` itself. -/
def isWholeNumber (string_number : String) : Nat :=
  if (strtoll string_number.data).2 ≠ []
      ∨ wrapInt32 (strtoll string_number.data).1 < 0
      ∨ wrapInt32 (strtoll string_number.data).1
          ≠ wrapInt32 ((strtoull string_number.data).1 : Int)
  then 0 else 1

/-- Two floating-point values are the same number. -/
def FloatValue.sameValue (a b : FloatValue) : Prop :=
  a.mant * 2 ^ (a.exp - min a.exp b.exp).toNat
    = b.mant * 2 ^ (b.exp - min a.exp b.exp).toNat

instance (a b : FloatValue) : Decidable (a.sameValue b) := by
  unfold FloatValue.sameValue
  infer_instance

/-! ## Example data used by the concrete checks -/

/-- An employee with the given identifier and department, and ordinary values
in the other fields (working performance 1.0). -/
def sampleEmployee (id department_id : String) : Employee :=
  { id := id, name := "An", salary_base := 1000000, working_days := 20,
    department_id := department_id, working_performance := { mant := 1, exp := 0 },
    bonus := 500000, late_coming_days := 0 }

/-- The store after adding employee "E1" of department "D1" (bonus 200000) to
the empty store. -/
def storeOne : Store :=
  { employees_arr := [sampleEmployee "E1" "D1"], employees_tail := [],
    departments_arr := [{ id := "D1", bonus_salary := 200000 }] }

/-- The store after adding employee "E2" of department "D2" (bonus 300000) to
`storeOne`. -/
def storeTwo : Store :=
  { employees_arr := [sampleEmployee "E1" "D1", sampleEmployee "E2" "D2"],
    employees_tail := [],
    departments_arr := [{ id := "D1", bonus_salary := 200000 },
                        { id := "D2", bonus_salary := 300000 }] }

/-- The store after adding employee "E3" of department "D2" to `storeTwo`, the
department prompt being answered with 400000. -/
def storeThree : Store :=
  { employees_arr := [sampleEmployee "E1" "D1", sampleEmployee "E2" "D2",
                      sampleEmployee "E3" "D2"],
    employees_tail := [],
    departments_arr := [{ id := "D1", bonus_salary := 200000 },
                        { id := "D2", bonus_salary := 300000 },
                        { id := "D2", bonus_salary := 400000 }] }

/-- The store after deleting employee "E1" from `storeOne`: no employee, the
department "D1" is still there and slot 0 of the array keeps the old record. -/
def storeOneDeleted : Store :=
  { employees_arr := [], employees_tail := [sampleEmployee "E1" "D1"],
    departments_arr := [{ id := "D1", bonus_salary := 200000 }] }

/-- The store after adding employee "E2" of department "D2" to
`storeOneDeleted`: no department prompt appears. -/
def storeOrphan : Store :=
  { employees_arr := [sampleEmployee "E2" "D2"], employees_tail := [],
    departments_arr := [{ id := "D1", bonus_salary := 200000 }] }

/-- The employee "E1" of `storeOne` with a bonus of 81,000,000,000,000,000. -/
def largeBonusEmployee : Employee :=
  { sampleEmployee "E1" "D1" with bonus := 81000000000000000 }

/-- An employee with base salary 1, one working day, working performance 1.0,
no bonus and one late day. -/
def lateEmployee : Employee :=
  { id := "E9", name := "Binh", salary_base := 1, working_days := 1,
    department_id := "D9", working_performance := { mant := 1, exp := 0 },
    bonus := 0, late_coming_days := 1 }

/-- The rational number a floating-point value stands for. -/
def FloatValue.toRat (a : FloatValue) : ℚ := (a.mant : ℚ) * (2 : ℚ) ^ a.exp

/-- An employee of department "D1" with the given identifier and working
performance, the other fields as in `sampleEmployee`. -/
def performer (id : String) (working_performance : FloatValue) : Employee :=
  { sampleEmployee id "D1" with working_performance := working_performance }

/-- The store after adding "E1" and "E2", both with working performance 1.0,
and then "E3" with working performance 2.0, all of department "D1". -/
def storeTie : Store :=
  { employees_arr := [performer "E1" { mant := 1, exp := 0 },
                      performer "E2" { mant := 1, exp := 0 },
                      performer "E3" { mant := 2, exp := 0 }],
    employees_tail := [],
    departments_arr := [{ id := "D1", bonus_salary := 200000 }] }

/-- An employee of department "D1" with base salary 1,000,000, the given
number of working days, working performance 1.0 and the given bonus. -/
def bonusEmployee (working_days bonus : Nat) : Employee :=
  { sampleEmployee "E1" "D1" with working_days := working_days, bonus := bonus }

/-- The digits of a number in groups of three, for a number of digits that is
a multiple of three. -/
def chunks3 : List Char → List (List Char)
  | a :: b :: c :: rest => [a, b, c] :: chunks3 rest
  | _ => []

/-- The position `(numLen - 1) % 3 + 1` of the first comma. -/
def firstGroupLength (numLen : Nat) : Nat := (numLen - 1) % 3 + 1

/-- The groups of digits written one after the other, each after a comma. -/
def withCommas : List (List Char) → List Char
  | [] => []
  | g :: gs => ',' :: g ++ withCommas gs

/-- The groups of digits written one after the other. -/
def concatGroups : List (List Char) → List Char
  | [] => []
  | g :: gs => g ++ concatGroups gs

/-- The store in the middle of `addEmployee`, after the new employee has been
written to `employees_arr[total_employees]` and the counter incremented (lines
445-448). -/
def Store.afterAppend (s : Store) (newEmployee : Employee) : Store :=
  { s with employees_arr := s.employees_arr ++ [newEmployee],
           employees_tail := s.employees_tail.tail }

/-- The store after adding "E1" of department "D1", "E2" of department "D2"
and "E3" of department "D3" (department bonuses 200000, 300000, 400000) and
then deleting "E2": three departments, none of the two employees in "D2", and
the old record of "E3" left in slot 2. -/
def storeThreeDepartments : Store :=
  { employees_arr := [sampleEmployee "E1" "D1", sampleEmployee "E3" "D3"],
    employees_tail := [sampleEmployee "E3" "D3"],
    departments_arr := [{ id := "D1", bonus_salary := 200000 },
                        { id := "D2", bonus_salary := 300000 },
                        { id := "D3", bonus_salary := 400000 }] }

/-! ## Lemmas on the loops -/

theorem id_exists_eq_true_iff (id : String) (l : List Employee) :
    id_exists id l = true ↔ ∃ e ∈ l, e.id = id := by
  induction l with
  | nil => simp [id_exists]
  | cons a l ih =>
    by_cases h : id = a.id
    · simp [id_exists, h]
    · have h1 : ¬ a.id = id := fun h2 => h h2.symm
      simp [id_exists, h, h1, ih]

theorem employee_in_department_eq_true_iff (d : String) (l : List Employee) :
    employee_in_department d l = true ↔ ∃ e ∈ l, e.department_id = d := by
  induction l with
  | nil => simp [employee_in_department]
  | cons a l ih =>
    by_cases h : d = a.department_id
    · simp [employee_in_department, h]
    · have h1 : ¬ a.department_id = d := fun h2 => h h2.symm
      simp [employee_in_department, h, h1, ih]

theorem scanDepartments_cons_of_employee (id : String) (emps : List Employee)
    (d : Department) (ds : List Department) (h : id = d.id)
    (hemp : employee_in_department d.id emps = true) :
    scanDepartments id emps (d :: ds) =
      { found := true, employee_exist := true, departments := d :: ds } := by
  cases ds <;> simp [scanDepartments, h, hemp]

theorem scanDepartments_cons_of_ne (id : String) (emps : List Employee)
    (d : Department) (ds : List Department) (h : ¬ id = d.id) :
    scanDepartments id emps (d :: ds) =
      { found := (scanDepartments id emps ds).found,
        employee_exist := (scanDepartments id emps ds).employee_exist,
        departments := d :: (scanDepartments id emps ds).departments } := by
  cases ds <;> simp [scanDepartments, h]

/-- With an employee in the department, the scan stops at the first match
with both flags set and the array as it was. -/
theorem scanDepartments_of_employee (id : String) (emps : List Employee)
    (hemp : employee_in_department id emps = true) (ds : List Department)
    (hdep : ∃ dep ∈ ds, dep.id = id) :
    scanDepartments id emps ds =
      { found := true, employee_exist := true, departments := ds } := by
  induction ds with
  | nil => simp at hdep
  | cons d ds ih =>
    by_cases h : id = d.id
    · have h2 : employee_in_department d.id emps = true := h ▸ hemp
      exact scanDepartments_cons_of_employee id emps d ds h h2
    · have h1 : ¬ d.id = id := fun h2 => h h2.symm
      have hrest : ∃ dep ∈ ds, dep.id = id := by
        obtain ⟨dep, hmem, hid⟩ := hdep
        rcases List.mem_cons.1 hmem with rfl | hmem
        · exact absurd hid h1
        · exact ⟨dep, hmem, hid⟩
      rw [scanDepartments_cons_of_ne id emps d ds h, ih hrest]

/-! ## Theorems on the store operations -/

/-- C1: when a department with identifier `d` exists and some stored employee
has `department_id = d`, `deleteDepartment` ends with the "cannot delete a
department that has employees" outcome and the store after the call is the
store before it. -/
theorem deleteDepartment_with_employees (s : Store) (d : String)
    (hdep : ∃ dep ∈ s.departments_arr, dep.id = d)
    (hemp : ∃ e ∈ s.employees_arr, e.department_id = d) :
    deleteDepartment s d = (DeleteDepartmentOutcome.hasEmployees, s) := by
  have hne : s.total_departments ≠ 0 := by
    obtain ⟨dep, hmem, _⟩ := hdep
    have := List.length_pos_of_mem hmem
    unfold Store.total_departments
    omega
  have hscan := scanDepartments_of_employee d s.employees_arr
    ((employee_in_department_eq_true_iff d s.employees_arr).2 hemp) s.departments_arr hdep
  simp [deleteDepartment, hne, hscan]

/-- Witness for `deleteDepartment_with_employees`: department "D1" of
`storeOne` has employee "E1". -/
theorem deleteDepartment_with_employees_witness :
    deleteDepartment storeOne "D1" = (DeleteDepartmentOutcome.hasEmployees, storeOne) :=
  deleteDepartment_with_employees storeOne "D1" (by decide) (by decide)

/-- C3: when the identifier of the candidate is the identifier of a stored
employee, `addEmployee` ends with the "ID already exists" outcome and the
store is unchanged: no employee is appended and no department is created. -/
theorem addEmployee_duplicate_id (s : Store) (candidate : Employee) (bonus_salary : Nat)
    (hdup : ∃ e ∈ s.employees_arr, e.id = candidate.id) :
    addEmployee s candidate bonus_salary = some (AddOutcome.idExists, s) := by
  have h := (id_exists_eq_true_iff candidate.id s.employees_arr).2 hdup
  simp [addEmployee, h]

/-- Witness for `addEmployee_duplicate_id`: a second "E1", for another
department, is offered to `storeOne`. -/
theorem addEmployee_duplicate_id_witness :
    addEmployee storeOne (sampleEmployee "E1" "D2") 7 = some (AddOutcome.idExists, storeOne) :=
  addEmployee_duplicate_id storeOne (sampleEmployee "E1" "D2") 7 (by decide)

/-! ## Reachability of the example stores -/

theorem storeOne_reachable : Reachable storeOne :=
  Reachable.add (sampleEmployee "E1" "D1") 200000 Reachable.start
    (show addEmployee emptyStore (sampleEmployee "E1" "D1") 200000
        = some (AddOutcome.createdDepartment, storeOne) by decide)

theorem storeTwo_reachable : Reachable storeTwo :=
  Reachable.add (sampleEmployee "E2" "D2") 300000 storeOne_reachable
    (show addEmployee storeOne (sampleEmployee "E2" "D2") 300000
        = some (AddOutcome.createdDepartment, storeTwo) by decide)

theorem storeThree_reachable : Reachable storeThree :=
  Reachable.add (sampleEmployee "E3" "D2") 400000 storeTwo_reachable
    (show addEmployee storeTwo (sampleEmployee "E3" "D2") 400000
        = some (AddOutcome.createdDepartment, storeThree) by decide)

theorem storeOneDeleted_reachable : Reachable storeOneDeleted := by
  have h := Reachable.delEmployee "E1" storeOne_reachable
  have e : (deleteEmployee storeOne "E1").2 = storeOneDeleted := by decide
  rw [e] at h
  exact h

theorem storeOrphan_reachable : Reachable storeOrphan :=
  Reachable.add (sampleEmployee "E2" "D2") 300000 storeOneDeleted_reachable
    (show addEmployee storeOneDeleted (sampleEmployee "E2" "D2") 300000
        = some (AddOutcome.addedEmployee, storeOrphan) by decide)

/-! ## The sort permutes, the shift removes -/

theorem sortInner_perm (x : Employee) (xs : List Employee) :
    ((sortInner x xs).1 :: (sortInner x xs).2).Perm (x :: xs) := by
  induction xs generalizing x with
  | nil => simp [sortInner]
  | cons y ys ih =>
    by_cases h : x.working_performance.lt y.working_performance = true
    · simp only [sortInner, h, if_true]
      exact (List.Perm.swap x _ _).trans ((ih y).cons x)
    · simp only [sortInner, h]
      exact (List.Perm.swap y _ _).trans ((ih x).cons y) |>.trans (List.Perm.swap x y ys)

theorem sortOuter_perm (n : Nat) (l : List Employee) : (sortOuter n l).Perm l := by
  induction n generalizing l with
  | zero => simp [sortOuter]
  | succ n ih =>
    cases l with
    | nil => simp [sortOuter]
    | cons x xs =>
      simp only [sortOuter]
      exact ((ih _).cons _).trans (sortInner_perm x xs)

theorem shiftOutEmployee_sublist (id : String) (l es : List Employee)
    (h : shiftOutEmployee id l = some es) : es.Sublist l := by
  induction l generalizing es with
  | nil => simp [shiftOutEmployee] at h
  | cons a l ih =>
    by_cases hid : id = a.id
    · simp [shiftOutEmployee, hid] at h
      subst h
      exact List.sublist_cons_self a l
    · simp only [shiftOutEmployee, hid, if_false, Option.map_eq_some'] at h
      obtain ⟨r, hr, rfl⟩ := h
      exact (ih r hr).cons₂ a

/-- The employees after one call of `addEmployee`: unchanged, or the old ones
followed by the new one, whose identifier no old employee has. -/
theorem addEmployee_employees (s s1 : Store) (e : Employee) (b : Nat) (o : AddOutcome)
    (h : addEmployee s e b = some (o, s1)) :
    s1.employees_arr = s.employees_arr ∨
      (s1.employees_arr = s.employees_arr ++ [e] ∧ id_exists e.id s.employees_arr = false) := by
  unfold addEmployee at h
  by_cases h1 : id_exists e.id s.employees_arr = true
  · simp [h1] at h
    left
    rw [← h.2]
  · have h1f : id_exists e.id s.employees_arr = false := by simpa using h1
    right
    refine ⟨?_, h1f⟩
    simp only [h1f, Bool.false_eq_true, if_false] at h
    split_ifs at h <;> simp at h <;> rw [← h.2]

/-- The employees after `deleteEmployee` are a sublist of those before. -/
theorem deleteEmployee_sublist (s : Store) (id : String) :
    (deleteEmployee s id).2.employees_arr.Sublist s.employees_arr := by
  unfold deleteEmployee
  split_ifs with h0
  · exact List.Sublist.refl _
  · cases hs : shiftOutEmployee id s.employees_arr with
    | none => exact List.Sublist.refl _
    | some es => exact shiftOutEmployee_sublist id _ es hs

/-- The operation `deleteDepartment` leaves the employees as they are. -/
theorem deleteDepartment_employees (s : Store) (id : String) :
    (deleteDepartment s id).2.employees_arr = s.employees_arr := by
  unfold deleteDepartment
  dsimp only
  split_ifs <;> rfl

/-- The operation `showEmployees` permutes the employees. -/
theorem showEmployees_perm (s : Store) :
    (showEmployees s).employees_arr.Perm s.employees_arr := by
  unfold showEmployees
  split_ifs
  · exact List.Perm.refl _
  · exact sortOuter_perm _ _

/-- The identifiers of the stored employees stay distinct under every
operation. -/
theorem reachable_ids_nodup (s : Store) (h : Reachable s) :
    (s.employees_arr.map Employee.id).Nodup := by
  induction h with
  | start => simp [emptyStore]
  | add e b _ hadd ih =>
    rcases addEmployee_employees _ _ e b _ hadd with heq | ⟨heq, hnew⟩
    · rw [heq]; exact ih
    · rw [heq, List.map_append, List.nodup_append]
      refine ⟨ih, by simp, ?_⟩
      intro a ha hb
      simp only [List.map_cons, List.map_nil, List.mem_singleton] at hb
      obtain ⟨e0, he0, hid⟩ := List.mem_map.1 ha
      have hex : id_exists e.id _ = true :=
        (id_exists_eq_true_iff e.id _).2 ⟨e0, he0, hid.trans hb⟩
      rw [hnew] at hex
      exact Bool.noConfusion hex
  | delEmployee id _ ih => exact ((deleteEmployee_sublist _ id).map _).nodup ih
  | delDepartment id _ ih => rw [deleteDepartment_employees]; exact ih
  | showAll _ ih => exact ((showEmployees_perm _).map _).nodup_iff.2 ih

/-- C2: in every state reachable from the empty store by `addEmployee`,
`deleteEmployee`, `deleteDepartment` and `showEmployees`, the identifiers of
the stored employees are pairwise distinct. -/
theorem employee_ids_distinct (s : Store) (h : Reachable s) :
    (s.employees_arr.map Employee.id).Nodup :=
  reachable_ids_nodup s h

/-- Witness for `employee_ids_distinct`: the reachable store `storeThree`
holds the employees "E1", "E2" and "E3". -/
theorem employee_ids_distinct_witness :
    (storeThree.employees_arr.map Employee.id).Nodup :=
  employee_ids_distinct storeThree storeThree_reachable

/-- C4: evaluation of `addEmployee` at two reachable stores where the
department is not created "if and only if it did not exist". In `storeTwo` a
department "D2" exists and employee "E3" of department "D2" is new, yet a second
department "D2" is written, because `employees_arr[0]` is in department "D1".
In `storeOneDeleted` no department "D2" exists, yet adding employee "E2" of
department "D2" writes no department, because the only slot compared is the
new employee itself. -/
theorem addEmployee_department_check_misses :
    (Reachable storeTwo
      ∧ id_exists "E3" storeTwo.employees_arr = false
      ∧ (∃ dep ∈ storeTwo.departments_arr, dep.id = "D2")
      ∧ addEmployee storeTwo (sampleEmployee "E3" "D2") 400000
          = some (AddOutcome.createdDepartment, storeThree)
      ∧ storeThree.departments_arr = storeTwo.departments_arr
          ++ [{ id := "D2", bonus_salary := 400000 }])
    ∧ (Reachable storeOneDeleted
      ∧ id_exists "E2" storeOneDeleted.employees_arr = false
      ∧ (∀ dep ∈ storeOneDeleted.departments_arr, dep.id ≠ "D2")
      ∧ addEmployee storeOneDeleted (sampleEmployee "E2" "D2") 300000
          = some (AddOutcome.addedEmployee, storeOrphan)
      ∧ storeOrphan.departments_arr = storeOneDeleted.departments_arr) :=
  ⟨⟨storeTwo_reachable, by decide, by decide, by decide, by decide⟩,
   ⟨storeOneDeleted_reachable, by decide, by decide, by decide, by decide⟩⟩

/-- C5: referential integrity does not hold in every reachable state. After
adding "E1" of department "D1", deleting "E1" and adding "E2" of department
"D2", employee "E2" is stored and no department has the identifier "D2". -/
theorem department_of_employee_can_be_missing :
    ¬ ∀ s : Store, Reachable s →
        ∀ e ∈ s.employees_arr, ∃ dep ∈ s.departments_arr, dep.id = e.department_id := by
  intro h
  have h1 := h storeOrphan storeOrphan_reachable (sampleEmployee "E2" "D2") (by decide)
  revert h1
  decide

/-- C6: department identifiers are not pairwise distinct in every reachable
state. After adding "E1" of department "D1", "E2" of department "D2" and "E3"
of department "D2", the department array holds "D1", "D2", "D2". -/
theorem department_ids_can_repeat :
    ¬ ∀ s : Store, Reachable s → (s.departments_arr.map Department.id).Nodup := by
  intro h
  have h1 := h storeThree storeThree_reachable
  revert h1
  decide

/-! ## Lemmas on rounding -/

theorem bitLengthAux_le (fuel n k : Nat) (h : n < 2 ^ k) : bitLengthAux fuel n ≤ k := by
  induction fuel generalizing n k with
  | zero => simp [bitLengthAux]
  | succ f ih =>
    unfold bitLengthAux
    split_ifs with h0
    · omega
    · cases k with
      | zero =>
        simp at h
        omega
      | succ k =>
        have h2 : n / 2 < 2 ^ k := by
          rw [pow_succ] at h
          omega
        have := ih (n / 2) k h2
        omega

theorem bitLength_le (n k : Nat) (h : n < 2 ^ k) : bitLength n ≤ k :=
  bitLengthAux_le n n k h

/-- A number that fits the precision is not changed. -/
theorem roundToPrecision_of_lt (p n : Nat) (h : n < 2 ^ p) : roundToPrecision p n = n := by
  have h0 : bitLength n - p = 0 := by
    have := bitLength_le n p h
    omega
  simp [roundToPrecision, h0, Nat.mod_one]

/-- The rounded number is one of the two neighbours of `n` on the grid. -/
theorem roundToPrecision_bounds (p n : Nat) :
    n / 2 ^ (bitLength n - p) * 2 ^ (bitLength n - p) ≤ roundToPrecision p n
      ∧ roundToPrecision p n
        ≤ n / 2 ^ (bitLength n - p) * 2 ^ (bitLength n - p) + 2 ^ (bitLength n - p) := by
  unfold roundToPrecision
  dsimp only
  split_ifs <;> constructor <;> simp [Nat.add_mul]

/-- Rounding followed by division by a power of two that the grid divides. -/
theorem roundToPrecision_div (p n k Q : Nat) (hs : bitLength n - p ≤ k)
    (hlo : Q * 2 ^ k ≤ n) (hhi : n + 2 ^ (bitLength n - p) < (Q + 1) * 2 ^ k) :
    roundToPrecision p n / 2 ^ k = Q := by
  obtain ⟨hb1, hb2⟩ := roundToPrecision_bounds p n
  generalize bitLength n - p = s at hs hhi hb1 hb2
  have hk : 2 ^ k = 2 ^ (k - s) * 2 ^ s := by
    rw [← pow_add]
    congr 1
    omega
  have hpos : 0 < 2 ^ s := Nat.pow_pos (by norm_num)
  have hq : Q * 2 ^ (k - s) ≤ n / 2 ^ s := by
    rw [Nat.le_div_iff_mul_le hpos, Nat.mul_assoc, ← hk]
    exact hlo
  have hlow : Q * 2 ^ k ≤ roundToPrecision p n := by
    calc Q * 2 ^ k = Q * 2 ^ (k - s) * 2 ^ s := by rw [hk, Nat.mul_assoc]
      _ ≤ n / 2 ^ s * 2 ^ s := Nat.mul_le_mul_right _ hq
      _ ≤ roundToPrecision p n := hb1
  have hup : roundToPrecision p n < (Q + 1) * 2 ^ k := by
    have := Nat.div_mul_le_self n (2 ^ s)
    omega
  have hkpos : 0 < 2 ^ k := Nat.pow_pos (by norm_num)
  apply Nat.div_eq_of_lt_le
  · exact hlow
  · exact hup

/-- The product with the `double` constant `0.1`, converted to an integer, is
the tenth of `x` rounded down as long as `x` is below `2 ^ 52`. -/
theorem mulRound_0_1_trunc (x : Nat) (hx : x < 2 ^ 52) :
    (mulRound 53 x double_0_1).trunc = x / 10 := by
  have hx53 : x < 2 ^ 53 := lt_trans hx (by norm_num)
  have hn : x * 7205759403792794 < 2 ^ 105 := by
    have h1 : x * 7205759403792794 < 2 ^ 52 * 2 ^ 53 :=
      Nat.mul_lt_mul'' hx (by norm_num)
    rwa [← pow_add] at h1
  have hs : bitLength (x * 7205759403792794) - 53 ≤ 52 := by
    have := bitLength_le _ 105 hn
    omega
  have hpow : 2 ^ (bitLength (x * 7205759403792794) - 53) ≤ 2 ^ 52 :=
    Nat.pow_le_pow_right (by norm_num) hs
  have key : roundToPrecision 53 (x * 7205759403792794) / 2 ^ 56 = x / 10 := by
    apply roundToPrecision_div
    · omega
    · norm_num
      omega
    · norm_num at hx hpow ⊢
      omega
  simp only [mulRound, FloatValue.trunc, double_0_1, roundToPrecision_of_lt 53 x hx53]
  norm_num
  exact key

/-- The product with the `double` constant `0.05`, converted to an integer, is
the twentieth of `x` rounded down as long as `x` is below `2 ^ 52`. -/
theorem mulRound_0_05_trunc (x : Nat) (hx : x < 2 ^ 52) :
    (mulRound 53 x double_0_05).trunc = x / 20 := by
  have hx53 : x < 2 ^ 53 := lt_trans hx (by norm_num)
  have hn : x * 7205759403792794 < 2 ^ 105 := by
    have h1 : x * 7205759403792794 < 2 ^ 52 * 2 ^ 53 :=
      Nat.mul_lt_mul'' hx (by norm_num)
    rwa [← pow_add] at h1
  have hs : bitLength (x * 7205759403792794) - 53 ≤ 52 := by
    have := bitLength_le _ 105 hn
    omega
  have hpow : 2 ^ (bitLength (x * 7205759403792794) - 53) ≤ 2 ^ 52 :=
    Nat.pow_le_pow_right (by norm_num) hs
  have key : roundToPrecision 53 (x * 7205759403792794) / 2 ^ 57 = x / 20 := by
    apply roundToPrecision_div
    · omega
    · norm_num
      omega
    · norm_num at hx hpow ⊢
      omega
  simp only [mulRound, FloatValue.trunc, double_0_05, roundToPrecision_of_lt 53 x hx53]
  norm_num
  exact key

/-- The three `double` constants are the binary64 numbers nearest to 0.895,
0.05 and 0.1: 53-bit significands, at most half a unit in the last place away
from the decimal value. -/
theorem double_constants_nearest :
    (2 ^ 52 ≤ double_0_895.mant ∧ double_0_895.mant < 2 ^ 53 ∧ double_0_895.exp = -53
      ∧ 2 * (double_0_895.mant * 1000) ≤ 2 * (895 * 2 ^ 53) + 1000
      ∧ 2 * (895 * 2 ^ 53) ≤ 2 * (double_0_895.mant * 1000) + 1000)
    ∧ (2 ^ 52 ≤ double_0_05.mant ∧ double_0_05.mant < 2 ^ 53 ∧ double_0_05.exp = -57
      ∧ 2 * (double_0_05.mant * 100) ≤ 2 * (5 * 2 ^ 57) + 100
      ∧ 2 * (5 * 2 ^ 57) ≤ 2 * (double_0_05.mant * 100) + 100)
    ∧ (2 ^ 52 ≤ double_0_1.mant ∧ double_0_1.mant < 2 ^ 53 ∧ double_0_1.exp = -56
      ∧ 2 * (double_0_1.mant * 10) ≤ 2 * (1 * 2 ^ 56) + 10
      ∧ 2 * (1 * 2 ^ 56) ≤ 2 * (double_0_1.mant * 10) + 10) := by
  simp only [double_0_895, double_0_05, double_0_1]
  norm_num

/-- A binary32 value equal to 1.0 is `2 ^ k * 2 ^ (-k)` for some `k ≤ 23`. -/
theorem sameValue_one (a : FloatValue) (hb : a.isBinary32)
    (h : a.sameValue { mant := 1, exp := 0 }) :
    ∃ k : Nat, k ≤ 23 ∧ a = { mant := 2 ^ k, exp := -(k : Int) } := by
  obtain ⟨m, ex⟩ := a
  obtain ⟨hm, -, -⟩ := hb
  simp only [FloatValue.sameValue] at h hm
  by_cases hex : 0 ≤ ex
  · rw [min_eq_right hex] at h
    simp only [sub_zero, Int.toNat_zero, pow_zero, mul_one] at h
    have h1 := Nat.eq_one_of_mul_eq_one_right h
    have h2 := Nat.eq_one_of_mul_eq_one_left h
    have h3 : ex.toNat = 0 := by
      by_contra hne
      have : 2 ≤ 2 ^ ex.toNat := by
        calc 2 = 2 ^ 1 := by norm_num
          _ ≤ 2 ^ ex.toNat := Nat.pow_le_pow_right (by norm_num) (by omega)
      omega
    refine ⟨0, by omega, ?_⟩
    have h4 : ex = 0 := by omega
    simp [h1, h4]
  · have hlt : ex < 0 := by omega
    rw [min_eq_left (le_of_lt hlt)] at h
    simp only [sub_self, Int.toNat_zero, pow_zero, mul_one, one_mul] at h
    have hk : (0 - ex).toNat < 24 := by
      by_contra hge
      have : 2 ^ 24 ≤ 2 ^ (0 - ex).toNat :=
        Nat.pow_le_pow_right (by norm_num) (by omega)
      omega
    refine ⟨(0 - ex).toNat, by omega, ?_⟩
    have h4 : ex = -(((0 - ex).toNat : Nat) : Int) := by omega
    rw [h]
    exact congrArg (FloatValue.mk _) h4

/-! ## Theorems on `calculateSalary` -/

/-- C7: for an employee with `salary_base` 1,000,000, `working_days` 20,
`working_performance` 1.0, `bonus` 500,000 and `late_coming_days` 0 whose
department bonus is 200,000, `calculateSalary` computes `income_without_bonus`
20,000,000, `total_income` 20,700,000, `totalIncome_without_tax` 18,526,500,
takes the last (10%) branch, computes `tax` 1,852,650 and returns
16,673,850. -/
theorem calculateSalary_payroll_example (s : Store) (e : Employee)
    (hsalary : e.salary_base = 1000000) (hdays : e.working_days = 20)
    (hfloat : e.working_performance.isBinary32)
    (hperf : e.working_performance.sameValue { mant := 1, exp := 0 })
    (hbonus : e.bonus = 500000) (hlate : e.late_coming_days = 0)
    (hdept : bonus_department e.department_id s.departments_arr = 200000) :
    income_without_bonus e = some 20000000
      ∧ total_income 20000000 e.bonus
          (bonus_department e.department_id s.departments_arr)
          (late_coming_penalty e.late_coming_days) = 20700000
      ∧ totalIncome_without_tax 20700000 = 18526500
      ∧ ¬ (0 < 18526500 ∧ 18526500 ≤ 11000000)
      ∧ ¬ (11000000 < 18526500 ∧ 18526500 ≤ 16000000)
      ∧ (mulRound 53 18526500 double_0_1).trunc = 1852650
      ∧ tax 18526500 = 1852650
      ∧ calculateSalary s e = some 16673850 := by
  obtain ⟨k, hk, hwp⟩ := sameValue_one e.working_performance hfloat hperf
  have hinc : income_without_bonus e = some 20000000 := by
    simp only [income_without_bonus, hsalary, hdays, hwp]
    interval_cases k <;> decide
  have htotal : total_income 20000000 e.bonus
      (bonus_department e.department_id s.departments_arr)
      (late_coming_penalty e.late_coming_days) = 20700000 := by
    rw [hbonus, hdept, hlate]
    decide
  refine ⟨hinc, htotal, by decide, by decide, by decide, by decide, by decide, ?_⟩
  simp only [calculateSalary, hinc, htotal]
  decide

/-- Witness for `calculateSalary_payroll_example`: employee "E1" of `storeOne`,
whose department "D1" has the bonus 200,000. -/
theorem calculateSalary_payroll_example_witness :
    income_without_bonus (sampleEmployee "E1" "D1") = some 20000000
      ∧ total_income 20000000 (sampleEmployee "E1" "D1").bonus
          (bonus_department (sampleEmployee "E1" "D1").department_id storeOne.departments_arr)
          (late_coming_penalty (sampleEmployee "E1" "D1").late_coming_days) = 20700000
      ∧ totalIncome_without_tax 20700000 = 18526500
      ∧ ¬ (0 < 18526500 ∧ 18526500 ≤ 11000000)
      ∧ ¬ (11000000 < 18526500 ∧ 18526500 ≤ 16000000)
      ∧ (mulRound 53 18526500 double_0_1).trunc = 1852650
      ∧ tax 18526500 = 1852650
      ∧ calculateSalary storeOne (sampleEmployee "E1" "D1") = some 16673850 :=
  calculateSalary_payroll_example storeOne (sampleEmployee "E1" "D1") rfl rfl
    (by decide) (by decide) rfl rfl (by decide)

/-- C8, as stated, fails: for `largeBonusEmployee` in `storeOne` the value of
`totalIncome_without_tax` is 72,495,000,018,079,008, above 16,000,000, and the
tax computed is 7,249,500,001,807,901, one more than 10% of the value
truncated to an integer, 7,249,500,001,807,900. -/
theorem tax_large_not_truncated_tenth :
    largeBonusEmployee.wellFormed
      ∧ income_without_bonus largeBonusEmployee = some 20000000
      ∧ totalIncome_without_tax
          (total_income 20000000 largeBonusEmployee.bonus
            (bonus_department largeBonusEmployee.department_id storeOne.departments_arr)
            (late_coming_penalty largeBonusEmployee.late_coming_days))
          = 72495000018079008
      ∧ 16000000 < 72495000018079008
      ∧ tax 72495000018079008 = 7249500001807901
      ∧ 10 * 72495000018079008 / 100 = 7249500001807900
      ∧ tax 72495000018079008 ≠ 10 * 72495000018079008 / 100
      ∧ calculateSalary storeOne largeBonusEmployee
          = some (72495000018079008 - 7249500001807901) := by
  set_option maxRecDepth 100000 in
  refine ⟨by decide, by decide, by decide, by decide, by decide, by decide, by decide,
    by decide⟩

/-- C8, amended: for every value `x` of `totalIncome_without_tax` below
`2 ^ 52`, the tax is 0 when `x ≤ 11,000,000` (also for `x = 0`), 5% of `x`
truncated to an integer when `11,000,000 < x ≤ 16,000,000`, and 10% of `x`
truncated to an integer when `x > 16,000,000`. -/
theorem tax_brackets (x : Nat) (hx : x < 2 ^ 52) :
    tax x = if x ≤ 11000000 then 0
            else if x ≤ 16000000 then 5 * x / 100
            else 10 * x / 100 := by
  unfold tax
  rw [mulRound_0_05_trunc x hx, mulRound_0_1_trunc x hx]
  by_cases h1 : x ≤ 11000000
  · by_cases h0 : 0 < x
    · simp [h0, h1]
    · have hz : x = 0 := by omega
      subst hz
      simp
  · by_cases h2 : x ≤ 16000000
    · have h3 : 11000000 < x := by omega
      simp only [h1, h2, h3, and_false, and_self, if_false, if_true]
      omega
    · have h3 : 11000000 < x := by omega
      simp only [h1, h2, and_false, if_false]
      omega

/-- Witness for `tax_brackets`: the bracket bounds and the value of the
payroll example. -/
theorem tax_brackets_witness :
    (11000000 < 2 ^ 52 ∧ tax 11000000 = 0)
      ∧ (16000000 < 2 ^ 52 ∧ tax 16000000 = 800000)
      ∧ (18526500 < 2 ^ 52 ∧ tax 18526500 = 1852650) :=
  ⟨⟨by decide, (tax_brackets 11000000 (by decide)).trans (by decide)⟩,
   ⟨by decide, (tax_brackets 16000000 (by decide)).trans (by decide)⟩,
   ⟨by decide, (tax_brackets 18526500 (by decide)).trans (by decide)⟩⟩

/-- The `int` product of a 16-bit number and a factor up to 20000 does not
overflow. -/
theorem mulInt32_exact (d c : Nat) (hd : d < 65536) (hc : c ≤ 20000) :
    mulInt32 d c = (d : Int) * c := by
  have hprod : d * c ≤ 65535 * 20000 := Nat.mul_le_mul (by omega) hc
  have hcast : ((d * c : Nat) : Int) = (d : Int) * c := by push_cast; rfl
  simp only [mulInt32, wrapInt32, show (2 : Int) ^ 31 = 2147483648 by norm_num,
    show (2 : Int) ^ 32 = 4294967296 by norm_num, ← hcast]
  omega

/-- Conversion of a non-negative `int` to `uint64_t` keeps the value. -/
theorem int32ToUInt64_natCast (n : Nat) (hn : n < 2147483648) :
    int32ToUInt64 (n : Int) = n := by
  simp only [int32ToUInt64, show (2 : Int) ^ 64 = 18446744073709551616 by norm_num]
  omega

/-- The late penalty for a 16-bit number of late days. -/
theorem late_coming_penalty_eq (late_coming_days : Nat) (h16n : late_coming_days < 65536) :
    late_coming_penalty late_coming_days
      = if late_coming_days ≤ 3 then late_coming_days * 10000
        else late_coming_days * 20000 := by
  have h1 := mulInt32_exact late_coming_days 10000 h16n (by norm_num)
  have h2 := mulInt32_exact late_coming_days 20000 h16n (by norm_num)
  have c1 := int32ToUInt64_natCast (late_coming_days * 10000) (by omega)
  have c2 := int32ToUInt64_natCast (late_coming_days * 20000) (by omega)
  push_cast at h1 h2 c1 c2
  simp only [late_coming_penalty, h1, h2, c1, c2]

/-- C9: for every 16-bit value of `late_coming_days` the penalty is
`late_coming_days * 10000` when `late_coming_days ≤ 3` and
`late_coming_days * 20000` otherwise, and neither `int` product overflows. -/
theorem late_coming_penalty_exact (late_coming_days : Nat)
    (h16 : late_coming_days < 2 ^ 16) :
    mulInt32 late_coming_days 10000 = (late_coming_days : Int) * 10000
      ∧ mulInt32 late_coming_days 20000 = (late_coming_days : Int) * 20000
      ∧ late_coming_penalty late_coming_days
          = if late_coming_days ≤ 3 then late_coming_days * 10000
            else late_coming_days * 20000 := by
  have h16n : late_coming_days < 65536 := by
    have e : (2 : Nat) ^ 16 = 65536 := by norm_num
    rwa [e] at h16
  have h1 := mulInt32_exact late_coming_days 10000 h16n (by norm_num)
  have h2 := mulInt32_exact late_coming_days 20000 h16n (by norm_num)
  push_cast at h1 h2
  exact ⟨h1, h2, late_coming_penalty_eq late_coming_days h16n⟩

/-- Witness for `late_coming_penalty_exact`: the largest 16-bit value. -/
theorem late_coming_penalty_exact_witness :
    65535 < 2 ^ 16 ∧ late_coming_penalty 65535 = 1310700000 :=
  ⟨by decide, (late_coming_penalty_exact 65535 (by decide)).2.2.trans (by decide)⟩

/-- The late penalty of a 16-bit number of days is at most 1,310,700,000. -/
theorem late_coming_penalty_le (late_coming_days : Nat) (h16 : late_coming_days < 2 ^ 16) :
    late_coming_penalty late_coming_days ≤ 1310700000 := by
  have h16n : late_coming_days < 65536 := by
    have e : (2 : Nat) ^ 16 = 65536 := by norm_num
    rwa [e] at h16
  clear h16
  rw [late_coming_penalty_eq late_coming_days h16n]
  split_ifs <;> omega

/-- The `uint64_t` expression of line 796 when the penalty exceeds the sum of
the other terms. -/
theorem total_income_of_lt (income bonus dept pen : Nat) (hlt : income + bonus + dept < pen)
    (hpen : pen < 2 ^ 64) :
    total_income income bonus dept pen = 2 ^ 64 - (pen - (income + bonus + dept)) := by
  rw [show (2 : Nat) ^ 64 = 18446744073709551616 by norm_num] at hpen
  simp only [total_income, sub64, add64,
    show (2 : Nat) ^ 64 = 18446744073709551616 by norm_num]
  omega

/-- C10: when the late penalty exceeds `income_without_bonus + bonus +
bonus_department`, `calculateSalary` goes on with the wrapped `uint64_t`
value as `total_income`: it is the difference reduced modulo `2 ^ 64`, that is
`2 ^ 64` minus the shortfall, at least `2 ^ 64 - 1,310,700,000`; it is not
set to zero and the function returns a salary computed from it. -/
theorem total_income_wraps (s : Store) (e : Employee) (income : Nat)
    (h16 : e.late_coming_days < 2 ^ 16)
    (hincome : income_without_bonus e = some income)
    (hlt : income + e.bonus + bonus_department e.department_id s.departments_arr
            < late_coming_penalty e.late_coming_days) :
    ((total_income income e.bonus
          (bonus_department e.department_id s.departments_arr)
          (late_coming_penalty e.late_coming_days) : Nat) : Int)
        = ((income : Int) + e.bonus + bonus_department e.department_id s.departments_arr
            - late_coming_penalty e.late_coming_days) % 2 ^ 64
      ∧ total_income income e.bonus
          (bonus_department e.department_id s.departments_arr)
          (late_coming_penalty e.late_coming_days)
        = 2 ^ 64 - (late_coming_penalty e.late_coming_days
            - (income + e.bonus + bonus_department e.department_id s.departments_arr))
      ∧ 2 ^ 64 - 1310700000 ≤ total_income income e.bonus
          (bonus_department e.department_id s.departments_arr)
          (late_coming_penalty e.late_coming_days)
      ∧ calculateSalary s e = some (sub64
          (totalIncome_without_tax (total_income income e.bonus
            (bonus_department e.department_id s.departments_arr)
            (late_coming_penalty e.late_coming_days)))
          (tax (totalIncome_without_tax (total_income income e.bonus
            (bonus_department e.department_id s.departments_arr)
            (late_coming_penalty e.late_coming_days))))) := by
  have hpenle := late_coming_penalty_le e.late_coming_days h16
  clear h16
  have hpen64 : late_coming_penalty e.late_coming_days < 2 ^ 64 := by
    rw [show (2 : Nat) ^ 64 = 18446744073709551616 by norm_num]
    omega
  have htotal := total_income_of_lt income e.bonus
    (bonus_department e.department_id s.departments_arr)
    (late_coming_penalty e.late_coming_days) hlt hpen64
  clear hpen64
  refine ⟨?_, htotal, ?_, ?_⟩
  · rw [htotal, show (2 : Nat) ^ 64 = 18446744073709551616 by norm_num,
      show (2 : Int) ^ 64 = 18446744073709551616 by norm_num]
    clear htotal
    omega
  · rw [htotal, show (2 : Nat) ^ 64 = 18446744073709551616 by norm_num]
    clear htotal
    omega
  · simp only [calculateSalary, hincome]

/-- Witness for `total_income_wraps`: `lateEmployee` in the empty store has an
income of 1 and a penalty of 10,000; the total income is `2 ^ 64 - 9999`. -/
theorem total_income_wraps_witness :
    total_income 1 lateEmployee.bonus
        (bonus_department lateEmployee.department_id emptyStore.departments_arr)
        (late_coming_penalty lateEmployee.late_coming_days) = 18446744073709541617
      ∧ calculateSalary emptyStore lateEmployee = some 14858852351373036544 :=
  ⟨(total_income_wraps emptyStore lateEmployee 1 (by decide) (by decide) (by decide)).2.1.trans
      (by decide),
   (total_income_wraps emptyStore lateEmployee 1 (by decide) (by decide) (by decide)).2.2.2.trans
      (by set_option maxRecDepth 100000 in decide)⟩

/-! ## Deleting employees and departments -/

/-- The loop of `deleteEmployee` finds nothing when no employee has the id. -/
theorem shiftOutEmployee_none (id : String) (l : List Employee)
    (h : ∀ e ∈ l, e.id ≠ id) : shiftOutEmployee id l = none := by
  induction l with
  | nil => rfl
  | cons a l ih =>
    have ha : ¬ id = a.id := fun h1 => h a (List.mem_cons_self a l) h1.symm
    have hl : ∀ e ∈ l, e.id ≠ id := fun e he => h e (List.mem_cons_of_mem a he)
    simp [shiftOutEmployee, ha, ih hl]

/-- The loop of `deleteEmployee` takes out the first employee with the id and
keeps the others in their order. -/
theorem shiftOutEmployee_some (id : String) (l : List Employee)
    (h : ∃ e ∈ l, e.id = id) :
    ∃ pre e post, l = pre ++ e :: post ∧ e.id = id ∧ (∀ x ∈ pre, x.id ≠ id)
      ∧ shiftOutEmployee id l = some (pre ++ post) := by
  induction l with
  | nil => simp at h
  | cons a l ih =>
    by_cases ha : id = a.id
    · exact ⟨[], a, l, rfl, ha.symm, by simp, by simp [shiftOutEmployee, ha]⟩
    · have hrest : ∃ e ∈ l, e.id = id := by
        obtain ⟨e, hmem, hid⟩ := h
        rcases List.mem_cons.1 hmem with rfl | hmem
        · exact absurd hid.symm ha
        · exact ⟨e, hmem, hid⟩
      obtain ⟨pre, e, post, hl, hid, hpre, hshift⟩ := ih hrest
      refine ⟨a :: pre, e, post, by rw [hl]; rfl, hid, ?_, ?_⟩
      · intro x hx
        rcases List.mem_cons.1 hx with rfl | hx
        · exact fun h1 => ha h1.symm
        · exact hpre x hx
      · simp [shiftOutEmployee, ha, hshift]

/-- The scan of `deleteDepartment` changes nothing and sets no flag when no
department has the id. -/
theorem scanDepartments_no_match (id : String) (emps : List Employee) (ds : List Department)
    (h : ∀ d ∈ ds, d.id ≠ id) :
    scanDepartments id emps ds =
      { found := false, employee_exist := false, departments := ds } := by
  induction ds with
  | nil => rfl
  | cons d ds ih =>
    have hd : ¬ id = d.id := fun h1 => h d (List.mem_cons_self d ds) h1.symm
    have hl : ∀ x ∈ ds, x.id ≠ id := fun x hx => h x (List.mem_cons_of_mem d hx)
    rw [scanDepartments_cons_of_ne id emps d ds hd, ih hl]

/-- The scan of `deleteDepartment` at a department with the id that has no
employee, when no later department has the id. -/
theorem scanDepartments_cons_delete (id : String) (emps : List Employee)
    (d : Department) (post : List Department) (hd : id = d.id)
    (hemp : employee_in_department d.id emps = false)
    (hpost : ∀ x ∈ post, x.id ≠ id) :
    scanDepartments id emps (d :: post) =
      { found := true, employee_exist := false, departments := post } := by
  cases post with
  | nil => simp [scanDepartments, hd, hemp]
  | cons d1 ds1 =>
    have hrest : ∀ x ∈ ds1, x.id ≠ id := fun x hx =>
      hpost x (List.mem_cons_of_mem d1 hx)
    have hscan := scanDepartments_no_match id emps ds1 hrest
    rw [hd] at hscan
    simp [scanDepartments, hd, hemp, hscan]

/-- The scan of `deleteDepartment` when exactly one department has the id and
no employee is in it. -/
theorem scanDepartments_delete (id : String) (emps : List Employee)
    (pre : List Department) (d : Department) (post : List Department) (hd : id = d.id)
    (hemp : employee_in_department d.id emps = false)
    (hpre : ∀ x ∈ pre, x.id ≠ id) (hpost : ∀ x ∈ post, x.id ≠ id) :
    scanDepartments id emps (pre ++ d :: post) =
      { found := true, employee_exist := false, departments := pre ++ post } := by
  induction pre with
  | nil => exact scanDepartments_cons_delete id emps d post hd hemp hpost
  | cons a pre ih =>
    have ha : ¬ id = a.id := fun h1 => hpre a (List.mem_cons_self a pre) h1.symm
    have hl : ∀ x ∈ pre, x.id ≠ id := fun x hx => hpre x (List.mem_cons_of_mem a hx)
    rw [List.cons_append, scanDepartments_cons_of_ne id emps a _ ha, ih hl]
    rfl

/-- A list with distinct identifiers splits around its element with a given
identifier. -/
theorem split_at_department (id : String) (ds : List Department)
    (hnodup : (ds.map Department.id).Nodup) (h : ∃ d ∈ ds, d.id = id) :
    ∃ pre d post, ds = pre ++ d :: post ∧ d.id = id
      ∧ (∀ x ∈ pre, x.id ≠ id) ∧ (∀ x ∈ post, x.id ≠ id) := by
  obtain ⟨d, hmem, hid⟩ := h
  obtain ⟨pre, post, hsplit⟩ := List.append_of_mem hmem
  refine ⟨pre, d, post, hsplit, hid, ?_, ?_⟩
  · intro x hx hxid
    rw [hsplit, List.map_append, List.map_cons, List.nodup_append] at hnodup
    exact hnodup.2.2 (List.mem_map_of_mem Department.id hx)
      (by rw [hxid, ← hid]; exact List.mem_cons_self _ _)
  · intro x hx hxid
    rw [hsplit, List.map_append, List.map_cons, List.nodup_append] at hnodup
    have hcons := hnodup.2.1
    rw [List.nodup_cons] at hcons
    exact hcons.1 (by rw [hid, ← hxid]; exact List.mem_map_of_mem Department.id hx)

/-- C17: on a store with at least one employee, when some employee has the
identifier `deleteEmployee` reports success, removes the first employee with
it and leaves the other employees in their order and the departments as they
were; when no employee has it, `deleteEmployee` reports "No employee has ID"
and the store is unchanged. -/
theorem deleteEmployee_removes_first (s : Store) (id : String)
    (hne : s.employees_arr ≠ []) :
    ((∃ e ∈ s.employees_arr, e.id = id) →
        (deleteEmployee s id).1 = DeleteEmployeeOutcome.deleted
        ∧ (∃ pre e post, s.employees_arr = pre ++ e :: post ∧ e.id = id
            ∧ (∀ x ∈ pre, x.id ≠ id)
            ∧ (deleteEmployee s id).2.employees_arr = pre ++ post)
        ∧ (deleteEmployee s id).2.departments_arr = s.departments_arr)
    ∧ ((∀ e ∈ s.employees_arr, e.id ≠ id) →
        deleteEmployee s id = (DeleteEmployeeOutcome.notFound, s)) := by
  have h0 : ¬ s.total_employees = 0 := by
    unfold Store.total_employees
    intro h
    exact hne (List.length_eq_zero.1 h)
  constructor
  · intro hex
    obtain ⟨pre, e, post, hl, hid, hpre, hshift⟩ := shiftOutEmployee_some id _ hex
    refine ⟨?_, ⟨pre, e, post, hl, hid, hpre, ?_⟩, ?_⟩ <;>
      simp [deleteEmployee, h0, hshift]
  · intro hno
    simp [deleteEmployee, h0, shiftOutEmployee_none id _ hno]

/-- Witness for `deleteEmployee_removes_first`: "E2" is deleted from
`storeThree`, and "E7" is not found there. -/
theorem deleteEmployee_removes_first_witness :
    (deleteEmployee storeThree "E2").2.employees_arr
        = [sampleEmployee "E1" "D1", sampleEmployee "E3" "D2"]
      ∧ deleteEmployee storeThree "E7" = (DeleteEmployeeOutcome.notFound, storeThree) :=
  ⟨by decide,
   (deleteEmployee_removes_first storeThree "E7" (by decide)).2 (by decide)⟩

/-- C18: in a reachable store, when `deleteEmployee` reports success for an
identifier, the list shown by a following `showEmployees` has no employee with
that identifier and one employee less than the store had before. -/
theorem deleteEmployee_then_showEmployees (s : Store) (id : String)
    (hreach : Reachable s)
    (hdel : (deleteEmployee s id).1 = DeleteEmployeeOutcome.deleted) :
    (∀ e ∈ (showEmployees (deleteEmployee s id).2).employees_arr, e.id ≠ id)
      ∧ (showEmployees (deleteEmployee s id).2).employees_arr.length + 1
          = s.employees_arr.length := by
  have hnodup := reachable_ids_nodup s hreach
  have hperm := showEmployees_perm (deleteEmployee s id).2
  by_cases h0 : s.total_employees = 0
  · simp [deleteEmployee, h0] at hdel
  · cases hs : shiftOutEmployee id s.employees_arr with
    | none => simp [deleteEmployee, h0, hs] at hdel
    | some es =>
      have hex : ∃ e ∈ s.employees_arr, e.id = id := by
        by_contra hno
        have hnone := shiftOutEmployee_none id s.employees_arr
          (fun e he hid => hno ⟨e, he, hid⟩)
        rw [hnone] at hs
        exact Option.noConfusion hs
      obtain ⟨pre, e, post, hl, hid, hpre, hshift⟩ := shiftOutEmployee_some id _ hex
      have hes : (deleteEmployee s id).2.employees_arr = pre ++ post := by
        simp [deleteEmployee, h0, hshift]
      rw [hl, List.map_append, List.map_cons, List.nodup_append] at hnodup
      have hcons := hnodup.2.1
      rw [List.nodup_cons] at hcons
      constructor
      · intro x hx hxid
        have hx2 : x ∈ pre ++ post := by
          rw [← hes]
          exact hperm.mem_iff.1 hx
        rcases List.mem_append.1 hx2 with hp | hp
        · exact hpre x hp hxid
        · exact hcons.1 (by rw [hid, ← hxid]; exact List.mem_map_of_mem Employee.id hp)
      · rw [hperm.length_eq, hes, hl]
        simp only [List.length_append, List.length_cons]
        omega

/-- Witness for `deleteEmployee_then_showEmployees`: "E2" is deleted from the
reachable store `storeThree`. -/
theorem deleteEmployee_then_showEmployees_witness :
    (∀ e ∈ (showEmployees (deleteEmployee storeThree "E2").2).employees_arr, e.id ≠ "E2")
      ∧ (showEmployees (deleteEmployee storeThree "E2").2).employees_arr.length + 1
          = storeThree.employees_arr.length :=
  deleteEmployee_then_showEmployees storeThree "E2" storeThree_reachable (by decide)

/-- Keeping the departments with another identifier takes out exactly the
one department that has it. -/
theorem filter_ne_of_split (id : String) (pre : List Department) (d : Department)
    (post : List Department) (hd : d.id = id)
    (hpre : ∀ x ∈ pre, x.id ≠ id) (hpost : ∀ x ∈ post, x.id ≠ id) :
    (pre ++ d :: post).filter (fun x => x.id ≠ id) = pre ++ post := by
  have h1 : pre.filter (fun x => x.id ≠ id) = pre :=
    List.filter_eq_self.2 (fun x hx => decide_eq_true (hpre x hx))
  have h2 : post.filter (fun x => x.id ≠ id) = post :=
    List.filter_eq_self.2 (fun x hx => decide_eq_true (hpost x hx))
  have h3 : decide (d.id ≠ id) = false := decide_eq_false (fun h => h hd)
  rw [List.filter_append, List.filter_cons, h1, h2, h3]
  rfl

theorem storeThreeDepartments_reachable : Reachable storeThreeDepartments := by
  have h2 : Reachable storeTwo := storeTwo_reachable
  have h3 := Reachable.add (sampleEmployee "E3" "D3") 400000 h2
    (show addEmployee storeTwo (sampleEmployee "E3" "D3") 400000
      = some (AddOutcome.createdDepartment,
          { employees_arr := [sampleEmployee "E1" "D1", sampleEmployee "E2" "D2",
                              sampleEmployee "E3" "D3"],
            employees_tail := [],
            departments_arr := [{ id := "D1", bonus_salary := 200000 },
                                { id := "D2", bonus_salary := 300000 },
                                { id := "D3", bonus_salary := 400000 }] }) by decide)
  have h4 := Reachable.delEmployee "E2" h3
  have e : (deleteEmployee
      { employees_arr := [sampleEmployee "E1" "D1", sampleEmployee "E2" "D2",
                          sampleEmployee "E3" "D3"],
        employees_tail := [],
        departments_arr := [{ id := "D1", bonus_salary := 200000 },
                            { id := "D2", bonus_salary := 300000 },
                            { id := "D3", bonus_salary := 400000 }] } "E2").2
      = storeThreeDepartments := by decide
  rw [e] at h4
  exact h4

/-- C19: on a store with at least one department and pairwise distinct
department identifiers, when no department has the identifier
`deleteDepartment` reports "No department has ID" and the store is unchanged;
when a department has it and no employee is in that department,
`deleteDepartment` reports success, the department array is the old one without
that department, the others in their order (the array split around the
department, and equally the array with the departments of another identifier
kept), and the employees are unchanged. -/
theorem deleteDepartment_distinct_ids (s : Store) (id : String)
    (hne : s.departments_arr ≠ [])
    (hnodup : (s.departments_arr.map Department.id).Nodup) :
    ((∀ d ∈ s.departments_arr, d.id ≠ id) →
        deleteDepartment s id = (DeleteDepartmentOutcome.notFound, s))
    ∧ ((∃ d ∈ s.departments_arr, d.id = id) →
        (∀ e ∈ s.employees_arr, e.department_id ≠ id) →
        (deleteDepartment s id).1 = DeleteDepartmentOutcome.deleted
        ∧ (∃ pre d post, s.departments_arr = pre ++ d :: post ∧ d.id = id
            ∧ (∀ x ∈ pre ++ post, x.id ≠ id)
            ∧ (deleteDepartment s id).2.departments_arr = pre ++ post)
        ∧ (deleteDepartment s id).2.employees_arr = s.employees_arr
        ∧ (deleteDepartment s id).2.employees_tail = s.employees_tail
        ∧ (deleteDepartment s id).2.departments_arr
            = s.departments_arr.filter (fun x => x.id ≠ id)
        ∧ (deleteDepartment s id).2.departments_arr.length + 1
            = s.departments_arr.length) := by
  have h0 : ¬ s.total_departments = 0 := by
    unfold Store.total_departments
    intro h
    exact hne (List.length_eq_zero.1 h)
  constructor
  · intro hno
    simp [deleteDepartment, h0, scanDepartments_no_match id s.employees_arr _ hno]
  · intro hex hemp
    obtain ⟨pre, d, post, hsplit, hid, hpre, hpost⟩ :=
      split_at_department id s.departments_arr hnodup hex
    have hnoemp : employee_in_department d.id s.employees_arr = false := by
      cases hb : employee_in_department d.id s.employees_arr with
      | false => rfl
      | true =>
        obtain ⟨e, he, hed⟩ := (employee_in_department_eq_true_iff d.id _).1 hb
        exact absurd (hed.trans hid) (hemp e he)
    have hscan := scanDepartments_delete id s.employees_arr pre d post hid.symm hnoemp
      hpre hpost
    rw [← hsplit] at hscan
    have hall : ∀ x ∈ pre ++ post, x.id ≠ id := by
      intro x hx
      rcases List.mem_append.1 hx with hp | hp
      · exact hpre x hp
      · exact hpost x hp
    have hres : (deleteDepartment s id).2.departments_arr = pre ++ post := by
      simp [deleteDepartment, h0, hscan]
    have hfilter : s.departments_arr.filter (fun x => x.id ≠ id) = pre ++ post := by
      rw [hsplit]
      exact filter_ne_of_split id pre d post hid hpre hpost
    have hlen : (pre ++ post).length + 1 = s.departments_arr.length := by
      rw [hsplit]
      simp only [List.length_append, List.length_cons]
      omega
    refine ⟨?_, ⟨pre, d, post, hsplit, hid, hall, hres⟩, ?_, ?_, ?_, ?_⟩
    · simp [deleteDepartment, h0, hscan]
    · simp [deleteDepartment, h0, hscan]
    · simp [deleteDepartment, h0, hscan]
    · rw [hres, hfilter]
    · rw [hres]
      exact hlen

/-- Witness for `deleteDepartment_distinct_ids`: the reachable store
`storeThreeDepartments` holds the departments "D1", "D2", "D3" and employees of
"D1" and "D3". Deleting "D2" moves "D3" down into slot 1: the departments left
are "D1", "D3" with their bonuses, in this order, the employees and the unused
slot are as before. "D5" is not found and the store stays as it is. -/
theorem deleteDepartment_distinct_ids_witness :
    Reachable storeThreeDepartments
      ∧ storeThreeDepartments.departments_arr.map Department.id = ["D1", "D2", "D3"]
      ∧ storeThreeDepartments.employees_arr.map Employee.department_id = ["D1", "D3"]
      ∧ (deleteDepartment storeThreeDepartments "D2").1 = DeleteDepartmentOutcome.deleted
      ∧ (deleteDepartment storeThreeDepartments "D2").2.departments_arr
          = [{ id := "D1", bonus_salary := 200000 }, { id := "D3", bonus_salary := 400000 }]
      ∧ (deleteDepartment storeThreeDepartments "D2").2.employees_arr
          = storeThreeDepartments.employees_arr
      ∧ (deleteDepartment storeThreeDepartments "D2").2.employees_tail
          = storeThreeDepartments.employees_tail
      ∧ deleteDepartment storeThreeDepartments "D5"
          = (DeleteDepartmentOutcome.notFound, storeThreeDepartments) :=
  ⟨storeThreeDepartments_reachable, by decide, by decide,
   ((deleteDepartment_distinct_ids storeThreeDepartments "D2" (by decide) (by decide)).2
      (by decide) (by decide)).1,
   ((deleteDepartment_distinct_ids storeThreeDepartments "D2" (by decide) (by decide)).2
      (by decide) (by decide)).2.2.2.2.1.trans (by decide),
   ((deleteDepartment_distinct_ids storeThreeDepartments "D2" (by decide) (by decide)).2
      (by decide) (by decide)).2.2.1,
   ((deleteDepartment_distinct_ids storeThreeDepartments "D2" (by decide) (by decide)).2
      (by decide) (by decide)).2.2.2.1,
   (deleteDepartment_distinct_ids storeThreeDepartments "D5" (by decide) (by decide)).1
      (by decide)⟩

/-- C20: with no employee, `showEmployees` lists nothing and changes nothing,
and `deleteEmployee` reports "No employee to delete" for every identifier
without changing the store; with no department, `deleteDepartment` reports "No
department to delete" for every identifier without changing the store. Both
outcomes differ from the not-found outcomes. -/
theorem empty_collection_outcomes (s : Store) :
    (s.employees_arr = [] →
        showEmployees s = s ∧ (showEmployees s).employees_arr = []
        ∧ ∀ id, deleteEmployee s id = (DeleteEmployeeOutcome.noEmployee, s))
    ∧ (s.departments_arr = [] →
        ∀ id, deleteDepartment s id = (DeleteDepartmentOutcome.noDepartment, s))
    ∧ DeleteEmployeeOutcome.noEmployee ≠ DeleteEmployeeOutcome.notFound
    ∧ DeleteDepartmentOutcome.noDepartment ≠ DeleteDepartmentOutcome.notFound := by
  refine ⟨?_, ?_, by decide, by decide⟩
  · intro h
    have h0 : s.total_employees = 0 := by simp [Store.total_employees, h]
    refine ⟨by simp [showEmployees, h0], by simp [showEmployees, h0, h], ?_⟩
    intro id
    simp [deleteEmployee, h0]
  · intro h id
    have h0 : s.total_departments = 0 := by simp [Store.total_departments, h]
    simp [deleteDepartment, h0]

/-- Witness for `empty_collection_outcomes`: the empty store. -/
theorem empty_collection_outcomes_witness :
    showEmployees emptyStore = emptyStore
      ∧ deleteEmployee emptyStore "E1" = (DeleteEmployeeOutcome.noEmployee, emptyStore)
      ∧ deleteDepartment emptyStore "D1"
          = (DeleteDepartmentOutcome.noDepartment, emptyStore) :=
  ⟨((empty_collection_outcomes emptyStore).1 rfl).1,
   ((empty_collection_outcomes emptyStore).1 rfl).2.2 "E1",
   (empty_collection_outcomes emptyStore).2.1 rfl "D1"⟩

/-! ## The sort of `showEmployees` -/

/-- The value of a floating-point number, written with a smaller exponent. -/
theorem toRat_rescale (a : FloatValue) (e : Int) (he : e ≤ a.exp) :
    a.toRat = ((a.mant * 2 ^ (a.exp - e).toNat : Nat) : ℚ) * (2 : ℚ) ^ e := by
  have h1 : (((a.exp - e).toNat : Nat) : Int) = a.exp - e :=
    Int.toNat_of_nonneg (by omega)
  have h2 : (2 : ℚ) ^ (a.exp - e).toNat = (2 : ℚ) ^ (a.exp - e) := by
    rw [← zpow_natCast, h1]
  unfold FloatValue.toRat
  push_cast
  rw [h2, mul_assoc, ← zpow_add₀ (by norm_num : (2 : ℚ) ≠ 0)]
  congr 2
  omega

/-- The comparison of the code is the comparison of the values. -/
theorem lt_iff_toRat (a b : FloatValue) : a.lt b = true ↔ a.toRat < b.toRat := by
  have hpos : (0 : ℚ) < (2 : ℚ) ^ (min a.exp b.exp) := zpow_pos (by norm_num) _
  rw [toRat_rescale a (min a.exp b.exp) (min_le_left _ _),
    toRat_rescale b (min a.exp b.exp) (min_le_right _ _),
    mul_lt_mul_right hpos, Nat.cast_lt]
  simp [FloatValue.lt]

/-- The comparison of the code fails exactly when the left value is at least
the right one. -/
theorem lt_eq_false_iff_toRat (a b : FloatValue) : a.lt b = false ↔ b.toRat ≤ a.toRat := by
  rw [← not_lt, ← lt_iff_toRat]
  simp

/-- After the inner loop, slot `i` holds a performance that is at least the
one it held before and at least that of every later slot. -/
theorem sortInner_max (x : Employee) (xs : List Employee) :
    x.working_performance.toRat ≤ (sortInner x xs).1.working_performance.toRat
      ∧ ∀ y ∈ (sortInner x xs).2,
          y.working_performance.toRat ≤ (sortInner x xs).1.working_performance.toRat := by
  induction xs generalizing x with
  | nil => simp [sortInner]
  | cons y ys ih =>
    by_cases h : x.working_performance.lt y.working_performance = true
    · have hlt := (lt_iff_toRat _ _).1 h
      obtain ⟨h1, h2⟩ := ih y
      simp only [sortInner, h, if_true]
      refine ⟨le_trans (le_of_lt hlt) h1, ?_⟩
      intro z hz
      rcases List.mem_cons.1 hz with rfl | hz
      · exact le_trans (le_of_lt hlt) h1
      · exact h2 z hz
    · have hge := (lt_eq_false_iff_toRat _ _).1 (by simpa using h)
      obtain ⟨h1, h2⟩ := ih x
      simp only [sortInner, h]
      refine ⟨h1, ?_⟩
      intro z hz
      rcases List.mem_cons.1 hz with rfl | hz
      · exact le_trans hge h1
      · exact h2 z hz

/-- The inner loop keeps the number of slots. -/
theorem sortInner_length (x : Employee) (xs : List Employee) :
    (sortInner x xs).2.length = xs.length := by
  have h := (sortInner_perm x xs).length_eq
  simpa using h

/-- With enough iterations of the outer loop the array is in descending order
of working performance. -/
theorem sortOuter_sorted (n : Nat) (l : List Employee) (hn : l.length ≤ n + 1) :
    (sortOuter n l).Pairwise
      (fun a b => b.working_performance.toRat ≤ a.working_performance.toRat) := by
  induction n generalizing l with
  | zero =>
    match l, hn with
    | [], _ => simp [sortOuter]
    | [x], _ => simp [sortOuter]
    | _ :: _ :: _, hn => simp at hn
  | succ n ih =>
    cases l with
    | nil => simp [sortOuter]
    | cons x xs =>
      simp only [sortOuter]
      rw [List.pairwise_cons]
      constructor
      · intro y hy
        have hy2 : y ∈ (sortInner x xs).2 := (sortOuter_perm n _).mem_iff.1 hy
        exact (sortInner_max x xs).2 y hy2
      · apply ih
        rw [sortInner_length]
        simpa using hn

/-- The inner loop changes nothing when slot `i` is not below any later slot. -/
theorem sortInner_of_max (x : Employee) (xs : List Employee)
    (h : ∀ y ∈ xs, x.working_performance.lt y.working_performance = false) :
    sortInner x xs = (x, xs) := by
  induction xs with
  | nil => rfl
  | cons y ys ih =>
    have hy := h y (List.mem_cons_self y ys)
    have hrest := ih (fun z hz => h z (List.mem_cons_of_mem y hz))
    simp [sortInner, hy, hrest]

/-- The outer loop changes nothing on an array that is already in descending
order. -/
theorem sortOuter_of_sorted (n : Nat) (l : List Employee)
    (h : l.Pairwise
      (fun a b => a.working_performance.lt b.working_performance = false)) :
    sortOuter n l = l := by
  induction n generalizing l with
  | zero => rfl
  | succ n ih =>
    cases l with
    | nil => rfl
    | cons x xs =>
      rw [List.pairwise_cons] at h
      simp only [sortOuter, sortInner_of_max x xs h.1, ih xs h.2]

theorem storeTie_reachable : Reachable storeTie := by
  have h1 : Reachable storeOne := storeOne_reachable
  have h2 := Reachable.add (performer "E2" { mant := 1, exp := 0 }) 0 h1
    (show addEmployee storeOne (performer "E2" { mant := 1, exp := 0 }) 0
      = some (AddOutcome.addedEmployee,
          { employees_arr := [performer "E1" { mant := 1, exp := 0 },
                              performer "E2" { mant := 1, exp := 0 }],
            employees_tail := [],
            departments_arr := [{ id := "D1", bonus_salary := 200000 }] }) by decide)
  exact Reachable.add (performer "E3" { mant := 2, exp := 0 }) 0 h2
    (show addEmployee _ (performer "E3" { mant := 2, exp := 0 }) 0
      = some (AddOutcome.addedEmployee, storeTie) by decide)

/-- The array after `showEmployees` is in descending order for the comparison
of the code. -/
theorem showEmployees_pairwise (s : Store) :
    (showEmployees s).employees_arr.Pairwise
      (fun a b => a.working_performance.lt b.working_performance = false) := by
  have hsorted : (showEmployees s).employees_arr.Pairwise
      (fun a b => b.working_performance.toRat ≤ a.working_performance.toRat) := by
    unfold showEmployees
    split_ifs with h0
    · have hnil : s.employees_arr = [] := List.length_eq_zero.1 h0
      rw [hnil]
      exact List.Pairwise.nil
    · apply sortOuter_sorted
      unfold Store.total_employees
      omega
  exact hsorted.imp (fun h => (lt_eq_false_iff_toRat _ _).2 h)

/-- C14: the sequence shown by `showEmployees` is a permutation of the stored
employees and is in descending order of working performance: no employee has a
smaller performance than a later one, as values and for the comparison of the
code. This holds for every store, in particular every non-empty one. -/
theorem showEmployees_sorted_perm (s : Store) :
    (showEmployees s).employees_arr.Perm s.employees_arr
      ∧ (showEmployees s).employees_arr.Pairwise
          (fun a b => b.working_performance.toRat ≤ a.working_performance.toRat)
      ∧ (showEmployees s).employees_arr.Pairwise
          (fun a b => a.working_performance.lt b.working_performance = false) := by
  refine ⟨showEmployees_perm s, ?_, showEmployees_pairwise s⟩
  exact (showEmployees_pairwise s).imp (fun h => (lt_eq_false_iff_toRat _ _).1 h)

/-- C15, as stated, fails: in the reachable store `storeTie` the employees
"E1" and "E2" have the same working performance and "E1" is stored before "E2",
but `showEmployees` lists "E3", "E2", "E1". -/
theorem showEmployees_not_stable :
    Reachable storeTie
      ∧ storeTie.employees_arr.map Employee.id = ["E1", "E2", "E3"]
      ∧ (performer "E1" { mant := 1, exp := 0 }).working_performance
          = (performer "E2" { mant := 1, exp := 0 }).working_performance
      ∧ (showEmployees storeTie).employees_arr.map Employee.id = ["E3", "E2", "E1"]
      ∧ (showEmployees storeTie).employees_arr.filter
            (fun e => e.working_performance = { mant := 1, exp := 0 })
          ≠ storeTie.employees_arr.filter
            (fun e => e.working_performance = { mant := 1, exp := 0 }) :=
  ⟨storeTie_reachable, by decide, by decide, by decide, by decide⟩

/-- C15, amended: when the stored employees are already in descending order of
working performance, `showEmployees` lists them in the stored order, so that
employees of equal working performance keep their relative order. -/
theorem showEmployees_of_sorted (s : Store)
    (h : s.employees_arr.Pairwise
      (fun a b => a.working_performance.lt b.working_performance = false)) :
    (showEmployees s).employees_arr = s.employees_arr
      ∧ ∀ p : FloatValue,
          (showEmployees s).employees_arr.filter (fun e => e.working_performance = p)
            = s.employees_arr.filter (fun e => e.working_performance = p) := by
  have heq : (showEmployees s).employees_arr = s.employees_arr := by
    unfold showEmployees
    split_ifs
    · rfl
    · exact sortOuter_of_sorted _ _ h
  exact ⟨heq, fun p => by rw [heq]⟩

/-- Witness for `showEmployees_of_sorted`: in `storeThree` all employees have
the working performance 1.0. -/
theorem showEmployees_of_sorted_witness :
    (showEmployees storeThree).employees_arr = storeThree.employees_arr :=
  (showEmployees_of_sorted storeThree (by decide)).1

/-- C16, as stated, fails: `showEmployees` changes the stored order of the
employees of the reachable store `storeTie`. -/
theorem showEmployees_changes_order :
    Reachable storeTie
      ∧ showEmployees storeTie ≠ storeTie
      ∧ (showEmployees storeTie).employees_arr ≠ storeTie.employees_arr
      ∧ (showEmployees storeTie).employees_arr
          = [performer "E3" { mant := 2, exp := 0 },
             performer "E2" { mant := 1, exp := 0 },
             performer "E1" { mant := 1, exp := 0 }] :=
  ⟨storeTie_reachable, by decide, by decide, by decide⟩

/-- C16, amended: `showEmployees` leaves the department array and the unused
slots as they are and keeps the stored employees up to their order: the
employee array after the call is a permutation of the one before, in the order
shown, and a second call changes nothing more. -/
theorem showEmployees_frame (s : Store) :
    (showEmployees s).departments_arr = s.departments_arr
      ∧ (showEmployees s).employees_tail = s.employees_tail
      ∧ (showEmployees s).employees_arr.Perm s.employees_arr
      ∧ (showEmployees s).employees_arr.length = s.employees_arr.length
      ∧ showEmployees (showEmployees s) = showEmployees s := by
  have hperm := showEmployees_perm s
  have hidem : (showEmployees (showEmployees s)).employees_arr
      = (showEmployees s).employees_arr := by
    have h := showEmployees_pairwise s
    generalize showEmployees s = t at h
    unfold showEmployees
    split_ifs
    · rfl
    · exact sortOuter_of_sorted _ _ h
  have hdep : ∀ t : Store, (showEmployees t).departments_arr = t.departments_arr := by
    intro t
    unfold showEmployees
    split_ifs <;> rfl
  have htail : ∀ t : Store, (showEmployees t).employees_tail = t.employees_tail := by
    intro t
    unfold showEmployees
    split_ifs <;> rfl
  refine ⟨hdep s, htail s, hperm, hperm.length_eq, ?_⟩
  have e1 := hdep (showEmployees s)
  have e2 := htail (showEmployees s)
  generalize showEmployees (showEmployees s) = u at hidem e1 e2
  generalize showEmployees s = t at hidem e1 e2
  cases u
  cases t
  simp_all

/-! ## The parts of `calculateSalary` -/

/-- The number of binary digits of a positive number is not too large. -/
theorem two_pow_bitLengthAux_le (fuel n : Nat) (hn : 0 < n) (hfuel : n ≤ fuel) :
    2 ^ bitLengthAux fuel n ≤ 2 * n := by
  induction fuel generalizing n with
  | zero => omega
  | succ f ih =>
    have h0 : ¬ n = 0 := by omega
    simp only [bitLengthAux, h0, if_false]
    by_cases h1 : n / 2 = 0
    · have hz : bitLengthAux f (n / 2) = 0 := by
        rw [h1]
        cases f <;> simp [bitLengthAux]
      rw [hz]
      simp
      omega
    · have hrec := ih (n / 2) (by omega) (by omega)
      rw [pow_succ]
      omega

/-- Rounding at most doubles a number. -/
theorem roundToPrecision_le_two_mul (p n : Nat) (hp : 0 < p) :
    roundToPrecision p n ≤ 2 * n := by
  by_cases hn : n < 2 ^ p
  · rw [roundToPrecision_of_lt p n hn]
    omega
  · have hpos : 0 < n := lt_of_lt_of_le (Nat.pow_pos (by norm_num)) (not_lt.1 hn)
    have hbl : 2 ^ bitLength n ≤ 2 * n := two_pow_bitLengthAux_le n n hpos (le_refl n)
    have hs : 2 ^ (bitLength n - p) ≤ n := by
      by_cases hb : bitLength n = 0
      · rw [hb]
        simpa using hpos
      · have h2 : 2 ^ (bitLength n - p) * 2 ≤ 2 ^ bitLength n := by
          rw [← pow_succ]
          exact Nat.pow_le_pow_right (by norm_num) (by omega)
        omega
    have hb := (roundToPrecision_bounds p n).2
    have hdiv := Nat.div_mul_le_self n (2 ^ (bitLength n - p))
    omega

/-- The integral part of a rounded product with a value of negative exponent. -/
theorem trunc_mulRound_neg (p x m k : Nat) (hk : 0 < k) :
    (mulRound p x { mant := m, exp := -(k : Int) }).trunc
      = roundToPrecision p (roundToPrecision p x * m) / 2 ^ k := by
  have hneg : ¬ (0 : Int) ≤ -(k : Int) := by omega
  simp only [mulRound, FloatValue.trunc, hneg, if_false, neg_neg, Int.toNat_natCast]

/-- The product with the `double` constant `0.1`, converted to an integer, is
at most `x`. -/
theorem mulRound_0_1_trunc_le (x : Nat) : (mulRound 53 x double_0_1).trunc ≤ x := by
  have h1 := roundToPrecision_le_two_mul 53 x (by norm_num)
  have h2 := roundToPrecision_le_two_mul 53 (roundToPrecision 53 x * 7205759403792794)
    (by norm_num)
  have e := trunc_mulRound_neg 53 x 7205759403792794 56 (by norm_num)
  rw [show ({ mant := 7205759403792794, exp := -((56 : Nat) : Int) } : FloatValue)
    = double_0_1 from rfl] at e
  rw [e, show (2 : Nat) ^ 56 = 72057594037927936 by norm_num]
  generalize roundToPrecision 53 (roundToPrecision 53 x * 7205759403792794) = r2 at h2 ⊢
  generalize roundToPrecision 53 x = r1 at h1 h2
  apply Nat.div_le_of_le_mul
  omega

/-- The product with the `double` constant `0.05`, converted to an integer, is
at most `x`. -/
theorem mulRound_0_05_trunc_le (x : Nat) : (mulRound 53 x double_0_05).trunc ≤ x := by
  have h1 := roundToPrecision_le_two_mul 53 x (by norm_num)
  have h2 := roundToPrecision_le_two_mul 53 (roundToPrecision 53 x * 7205759403792794)
    (by norm_num)
  have e := trunc_mulRound_neg 53 x 7205759403792794 57 (by norm_num)
  rw [show ({ mant := 7205759403792794, exp := -((57 : Nat) : Int) } : FloatValue)
    = double_0_05 from rfl] at e
  rw [e, show (2 : Nat) ^ 57 = 144115188075855872 by norm_num]
  generalize roundToPrecision 53 (roundToPrecision 53 x * 7205759403792794) = r2 at h2 ⊢
  generalize roundToPrecision 53 x = r1 at h1 h2
  apply Nat.div_le_of_le_mul
  omega

/-- In every branch of lines 802-814 the tax is at most the income it is
computed from. -/
theorem tax_le (x : Nat) : tax x ≤ x := by
  unfold tax
  split_ifs
  · exact Nat.zero_le x
  · exact mulRound_0_05_trunc_le x
  · exact mulRound_0_1_trunc_le x

/-- The product with `0.895` of a `uint64_t` value fits `uint64_t`. -/
theorem totalIncome_without_tax_lt (t : Nat) (ht : t < 2 ^ 64) :
    totalIncome_without_tax t < 2 ^ 64 := by
  have e := trunc_mulRound_neg 53 t 8061443332993188 53 (by norm_num)
  rw [show ({ mant := 8061443332993188, exp := -((53 : Nat) : Int) } : FloatValue)
    = double_0_895 from rfl] at e
  change totalIncome_without_tax t = _ at e
  have hs1 : bitLength t - 53 ≤ 11 := by
    have := bitLength_le t 64 ht
    omega
  have hp1 : 2 ^ (bitLength t - 53) ≤ 2 ^ 11 := Nat.pow_le_pow_right (by norm_num) hs1
  have hb1 := (roundToPrecision_bounds 53 t).2
  have hd1 := Nat.div_mul_le_self t (2 ^ (bitLength t - 53))
  have hr1 : roundToPrecision 53 t ≤ 18446744073709553663 := by
    rw [show (2 : Nat) ^ 64 = 18446744073709551616 by norm_num] at ht
    rw [show (2 : Nat) ^ 11 = 2048 by norm_num] at hp1
    generalize 2 ^ (bitLength t - 53) = g at hp1 hb1 hd1
    generalize t / g * g = q at hb1 hd1
    generalize roundToPrecision 53 t = r at hb1 ⊢
    omega
  clear hs1 hp1 hb1 hd1 ht
  rw [e]
  clear e
  generalize roundToPrecision 53 t = r1 at hr1 ⊢
  have hP : r1 * 8061443332993188 < 2 ^ 118 := by
    rw [show (2 : Nat) ^ 118 = 332306998946228968225951765070086144 by norm_num]
    omega
  have hs2 : bitLength (r1 * 8061443332993188) - 53 ≤ 65 := by
    have := bitLength_le _ 118 hP
    omega
  have hp2 : 2 ^ (bitLength (r1 * 8061443332993188) - 53) ≤ 2 ^ 65 :=
    Nat.pow_le_pow_right (by norm_num) hs2
  have hb2 := (roundToPrecision_bounds 53 (r1 * 8061443332993188)).2
  have hd2 := Nat.div_mul_le_self (r1 * 8061443332993188)
    (2 ^ (bitLength (r1 * 8061443332993188) - 53))
  rw [show (2 : Nat) ^ 53 = 9007199254740992 by norm_num]
  rw [show (2 : Nat) ^ 65 = 36893488147419103232 by norm_num] at hp2
  clear hP hs2
  generalize 2 ^ (bitLength (r1 * 8061443332993188) - 53) = g at hp2 hb2 hd2
  generalize r1 * 8061443332993188 / g * g = q at hb2 hd2
  generalize roundToPrecision 53 (r1 * 8061443332993188) = r2 at hb2 ⊢
  rw [Nat.div_lt_iff_lt_mul (by norm_num)]
  omega

/-- The expression of line 796 is a `uint64_t` value. -/
theorem total_income_lt (a b c d : Nat) : total_income a b c d < 2 ^ 64 := by
  unfold total_income sub64
  exact Nat.mod_lt _ (Nat.pow_pos (by norm_num))

/-- A `uint64_t` subtraction that does not wrap. -/
theorem sub64_of_le (a b : Nat) (ha : a < 2 ^ 64) (hb : b ≤ a) : sub64 a b = a - b := by
  rw [show (2 : Nat) ^ 64 = 18446744073709551616 by norm_num] at ha
  simp only [sub64, show (2 : Nat) ^ 64 = 18446744073709551616 by norm_num]
  omega

/-- The value `calculateSalary` returns once `income_without_bonus` is
defined. -/
theorem calculateSalary_of_income (s : Store) (e : Employee) (income : Nat)
    (hincome : income_without_bonus e = some income) :
    calculateSalary s e = some (sub64
      (totalIncome_without_tax (total_income income e.bonus
        (bonus_department e.department_id s.departments_arr)
        (late_coming_penalty e.late_coming_days)))
      (tax (totalIncome_without_tax (total_income income e.bonus
        (bonus_department e.department_id s.departments_arr)
        (late_coming_penalty e.late_coming_days))))) := by
  simp only [calculateSalary, hincome]

/-- C12: whenever `calculateSalary` returns, the value is
`totalIncome_without_tax - tax`; in every branch the tax is at most
`totalIncome_without_tax`, so the `uint64_t` subtraction of line 817 does not
wrap and the result is at most `totalIncome_without_tax`. -/
theorem calculateSalary_net (s : Store) (e : Employee) (income : Nat)
    (hincome : income_without_bonus e = some income) :
    calculateSalary s e
        = some (totalIncome_without_tax (total_income income e.bonus
              (bonus_department e.department_id s.departments_arr)
              (late_coming_penalty e.late_coming_days))
            - tax (totalIncome_without_tax (total_income income e.bonus
              (bonus_department e.department_id s.departments_arr)
              (late_coming_penalty e.late_coming_days))))
      ∧ tax (totalIncome_without_tax (total_income income e.bonus
              (bonus_department e.department_id s.departments_arr)
              (late_coming_penalty e.late_coming_days)))
          ≤ totalIncome_without_tax (total_income income e.bonus
              (bonus_department e.department_id s.departments_arr)
              (late_coming_penalty e.late_coming_days))
      ∧ (∀ net, calculateSalary s e = some net →
          net ≤ totalIncome_without_tax (total_income income e.bonus
              (bonus_department e.department_id s.departments_arr)
              (late_coming_penalty e.late_coming_days)))
      ∧ (∀ x, tax x ≤ x) := by
  have hlt := totalIncome_without_tax_lt _ (total_income_lt income e.bonus
    (bonus_department e.department_id s.departments_arr)
    (late_coming_penalty e.late_coming_days))
  have hc := calculateSalary_of_income s e income hincome
  generalize totalIncome_without_tax (total_income income e.bonus
    (bonus_department e.department_id s.departments_arr)
    (late_coming_penalty e.late_coming_days)) = x at hlt hc ⊢
  rw [sub64_of_le x (tax x) hlt (tax_le x)] at hc
  refine ⟨hc, tax_le x, ?_, tax_le⟩
  intro net hnet
  rw [hc] at hnet
  have hnet2 : x - tax x = net := Option.some.inj hnet
  omega

/-- Witness for `calculateSalary_net`: the employee of the payroll example,
18,526,500 - 1,852,650. -/
theorem calculateSalary_net_witness :
    calculateSalary storeOne (sampleEmployee "E1" "D1") = some (18526500 - 1852650) :=
  (calculateSalary_net storeOne (sampleEmployee "E1" "D1") 20000000 (by decide)).1.trans
    (by decide)

/-! ## formatNumberWithCommas -/

theorem digitChar_isDigit (d : Nat) (h : d < 10) : (Nat.digitChar d).isDigit = true := by
  interval_cases d <;> rfl

theorem toDigitsCore_isDigit (fuel n : Nat) (ds : List Char)
    (hds : ∀ c ∈ ds, c.isDigit = true) :
    ∀ c ∈ Nat.toDigitsCore 10 fuel n ds, c.isDigit = true := by
  induction fuel generalizing n ds with
  | zero => simpa [Nat.toDigitsCore] using hds
  | succ f ih =>
    have hd : (Nat.digitChar (n % 10)).isDigit = true :=
      digitChar_isDigit _ (Nat.mod_lt _ (by norm_num))
    have hcons : ∀ c ∈ Nat.digitChar (n % 10) :: ds, c.isDigit = true := by
      intro c hc
      rcases List.mem_cons.1 hc with rfl | hc
      · exact hd
      · exact hds c hc
    simp only [Nat.toDigitsCore]
    split_ifs
    · exact hcons
    · exact ih _ _ hcons

/-- Every character that `sprintf` writes is a decimal digit. -/
theorem sprintf_llu_isDigit (n : Nat) : ∀ c ∈ sprintf_llu n, c.isDigit = true :=
  toDigitsCore_isDigit (n + 1) n [] (by simp)

/-- A decimal digit is not a comma. -/
theorem ne_comma_of_isDigit (c : Char) (h : c.isDigit = true) : c ≠ ',' := by
  intro hc
  rw [hc] at h
  exact absurd h (by decide)

theorem toDigitsCore_ne_nil (fuel n : Nat) (ds : List Char) :
    Nat.toDigitsCore 10 (fuel + 1) n ds ≠ [] := by
  induction fuel generalizing n ds with
  | zero =>
    simp only [Nat.toDigitsCore]
    split_ifs <;> simp
  | succ f ih =>
    rw [Nat.toDigitsCore]
    split_ifs
    · simp
    · exact ih _ _

/-- The string that `sprintf` writes is not empty. -/
theorem sprintf_llu_ne_nil (n : Nat) : sprintf_llu n ≠ [] :=
  toDigitsCore_ne_nil n n []

/-- A 64-bit number has at most 20 decimal digits, so `numStr[40]` holds them. -/
theorem sprintf_llu_length_le (n : Nat) (h : n < 2 ^ 64) : (sprintf_llu n).length ≤ 20 := by
  apply Nat.toDigitsCore_length 10 (by norm_num) (n + 1) n 20 _ (by norm_num)
  exact lt_trans h (by norm_num)

/-- Removing the commas from the output of the loop gives its input back. -/
theorem formatLoop_filter (numLen : Nat) (l : List Char) (i : Nat)
    (h : ∀ c ∈ l, c ≠ ',') :
    (formatLoop numLen i l).filter (fun c => c ≠ ',') = l := by
  induction l generalizing i with
  | nil => rfl
  | cons a l ih =>
    have ha : a ≠ ',' := h a (List.mem_cons_self a l)
    have hl := ih (i + 1) (fun c hc => h c (List.mem_cons_of_mem a hc))
    simp only [formatLoop]
    split_ifs
    · simp only [List.filter_cons, show decide ((',' : Char) ≠ ',') = false by decide,
        decide_eq_true ha]
      exact congrArg (List.cons a) hl
    · simp only [List.filter_cons, decide_eq_true ha]
      exact congrArg (List.cons a) hl

/-- The output of the loop ends with the last character of its input. -/
theorem formatLoop_append_singleton (numLen : Nat) (l : List Char) (c : Char) (i : Nat) :
    ∃ pre, formatLoop numLen i (l ++ [c]) = pre ++ [c] := by
  induction l generalizing i with
  | nil =>
    simp only [List.nil_append, formatLoop]
    split_ifs
    · exact ⟨[','], rfl⟩
    · exact ⟨[], rfl⟩
  | cons a l ih =>
    obtain ⟨pre, hpre⟩ := ih (i + 1)
    rw [List.cons_append, formatLoop]
    split_ifs
    · exact ⟨',' :: a :: pre, by rw [hpre]; rfl⟩
    · exact ⟨a :: pre, by rw [hpre]; rfl⟩

/-- From an index `i > 0` with a multiple of three digits left, the loop
writes the digits in groups of three, each after a comma. -/
theorem formatLoop_chunks (numLen : Nat) :
    ∀ (rest : List Char) (i : Nat), 0 < i → numLen - i = rest.length →
      rest.length % 3 = 0 → formatLoop numLen i rest = withCommas (chunks3 rest)
  | [], _, _, _, _ => rfl
  | [_], _, _, _, h => by simp at h
  | [_, _], _, _, _, h => by simp at h
  | a :: b :: c :: rest, i, hi, hlen, hmod => by
    simp only [List.length_cons] at hlen hmod
    have ih := formatLoop_chunks numLen rest (i + 3) (by omega) (by omega) (by omega)
    have h0 : 0 < i ∧ (numLen - i) % 3 = 0 := ⟨hi, by omega⟩
    have h1 : ¬ (0 < i + 1 ∧ (numLen - (i + 1)) % 3 = 0) := by omega
    have h2 : ¬ (0 < i + 1 + 1 ∧ (numLen - (i + 1 + 1)) % 3 = 0) := by omega
    simp only [formatLoop, h0, h1, h2, if_true, if_false, chunks3, withCommas, and_self]
    rw [show i + 1 + 1 + 1 = i + 3 from rfl, ih]
    rfl

/-- The loop writes the first `firstGroupLength` digits without a comma. -/
theorem formatLoop_first (l : List Char) (hne : l ≠ []) :
    formatLoop l.length 0 l
      = l.take (firstGroupLength l.length)
        ++ formatLoop l.length (firstGroupLength l.length)
            (l.drop (firstGroupLength l.length)) := by
  unfold firstGroupLength
  match l, hne with
  | [a], _ => simp [formatLoop]
  | [a, b], _ => simp [formatLoop]
  | a :: b :: c :: rest, _ =>
    simp only [List.length_cons]
    have hcases : (rest.length + 1 + 1 + 1 - 1) % 3 = 0 ∨ (rest.length + 1 + 1 + 1 - 1) % 3 = 1
        ∨ (rest.length + 1 + 1 + 1 - 1) % 3 = 2 := by omega
    rcases hcases with h | h | h
    · have h1 : ¬ (rest.length + 1 + 1 + 1 - 1) % 3 = 0 → False := fun hn => hn h
      rw [h]
      simp only [formatLoop, Nat.lt_irrefl, false_and, if_false, List.take, List.drop,
        List.cons_append, List.nil_append, Nat.zero_add]
    · rw [h]
      have h1 : ¬ (0 < 0 + 1 ∧ (rest.length + 1 + 1 + 1 - (0 + 1)) % 3 = 0) := by omega
      simp only [formatLoop, Nat.lt_irrefl, false_and, if_false, h1, List.take, List.drop,
        List.cons_append, List.nil_append, Nat.zero_add]
    · rw [h]
      have h1 : ¬ (0 < 0 + 1 ∧ (rest.length + 1 + 1 + 1 - (0 + 1)) % 3 = 0) := by omega
      have h2 : ¬ (0 < 0 + 1 + 1 ∧ (rest.length + 1 + 1 + 1 - (0 + 1 + 1)) % 3 = 0) := by
        omega
      simp only [formatLoop, Nat.lt_irrefl, false_and, if_false, h1, h2, List.take,
        List.drop, List.cons_append, List.nil_append, Nat.zero_add]

theorem chunks3_length : ∀ (l : List Char), ∀ g ∈ chunks3 l, g.length = 3
  | [], g, h => by simp [chunks3] at h
  | [_], g, h => by simp [chunks3] at h
  | [_, _], g, h => by simp [chunks3] at h
  | a :: b :: c :: rest, g, h => by
    simp only [chunks3, List.mem_cons] at h
    rcases h with rfl | h
    · rfl
    · exact chunks3_length rest g h

theorem concatGroups_chunks3 : ∀ (l : List Char), l.length % 3 = 0 →
    concatGroups (chunks3 l) = l
  | [], _ => rfl
  | [_], h => by simp at h
  | [_, _], h => by simp at h
  | a :: b :: c :: rest, h => by
    simp only [List.length_cons] at h
    have ih := concatGroups_chunks3 rest (by omega)
    simp only [chunks3, concatGroups, ih]
    rfl

theorem withCommas_length (gs : List (List Char)) (h : ∀ g ∈ gs, g.length = 3) :
    (withCommas gs).length = 4 * gs.length ∧ (concatGroups gs).length = 3 * gs.length := by
  induction gs with
  | nil => simp [withCommas, concatGroups]
  | cons g gs ih =>
    have hg := h g (List.mem_cons_self g gs)
    obtain ⟨h1, h2⟩ := ih (fun x hx => h x (List.mem_cons_of_mem g hx))
    simp only [withCommas, concatGroups, List.length_cons, List.length_append, hg, h1, h2]
    omega

/-- C21: `formatNumberWithCommas` writes the decimal digits of the number in
groups separated by commas: a first group of 1 to 3 digits and then groups of
exactly 3 digits, each after a comma. All characters of the groups are decimal
digits, removing the commas gives the digits back, the result neither starts
nor ends with a comma, and for a 64-bit number it has at most 26 characters,
which `formattedStr[40]` holds. -/
theorem formatNumberWithCommas_groups (n : Nat) :
    (∃ first later,
        sprintf_llu n = first ++ concatGroups later
        ∧ (formatNumberWithCommas n).data = first ++ withCommas later
        ∧ 1 ≤ first.length ∧ first.length ≤ 3
        ∧ ∀ g ∈ later, g.length = 3)
      ∧ (∀ c ∈ sprintf_llu n, c.isDigit = true)
      ∧ (formatNumberWithCommas n).data.filter (fun c => c ≠ ',') = sprintf_llu n
      ∧ (formatNumberWithCommas n).data.head? ≠ some ','
      ∧ (formatNumberWithCommas n).data.getLast? ≠ some ','
      ∧ (n < 2 ^ 64 → (formatNumberWithCommas n).data.length ≤ 26) := by
  have hdig := sprintf_llu_isDigit n
  have hne := sprintf_llu_ne_nil n
  have hlen64 := sprintf_llu_length_le n
  have hdata : (formatNumberWithCommas n).data
      = formatLoop (sprintf_llu n).length 0 (sprintf_llu n) := rfl
  rw [hdata]
  generalize sprintf_llu n = l at hdig hne hlen64 ⊢
  have hpos : 0 < l.length := List.length_pos.2 hne
  have hr1 : 1 ≤ firstGroupLength l.length := by unfold firstGroupLength; omega
  have hr3 : firstGroupLength l.length ≤ 3 := by unfold firstGroupLength; omega
  have hrl : firstGroupLength l.length ≤ l.length := by unfold firstGroupLength; omega
  have hmod : (l.length - firstGroupLength l.length) % 3 = 0 := by
    unfold firstGroupLength
    omega
  have hdrop : (l.drop (firstGroupLength l.length)).length % 3 = 0 := by
    rw [List.length_drop]
    exact hmod
  have hloop : formatLoop l.length 0 l
      = l.take (firstGroupLength l.length)
        ++ withCommas (chunks3 (l.drop (firstGroupLength l.length))) := by
    rw [formatLoop_first l hne,
      formatLoop_chunks l.length (l.drop (firstGroupLength l.length))
        (firstGroupLength l.length) (by omega) (by rw [List.length_drop]) hdrop]
  have htake : (l.take (firstGroupLength l.length)).length = firstGroupLength l.length := by
    rw [List.length_take]
    omega
  have hgroups := chunks3_length (l.drop (firstGroupLength l.length))
  refine ⟨⟨l.take (firstGroupLength l.length),
      chunks3 (l.drop (firstGroupLength l.length)), ?_, hloop, ?_, ?_, hgroups⟩,
    hdig, ?_, ?_, ?_, ?_⟩
  · rw [concatGroups_chunks3 _ hdrop, List.take_append_drop]
  · rw [htake]; exact hr1
  · rw [htake]; exact hr3
  · exact formatLoop_filter l.length l 0 (fun c hc => ne_comma_of_isDigit c (hdig c hc))
  · cases l with
    | nil => exact absurd rfl hne
    | cons c cs =>
      have hc := ne_comma_of_isDigit c (hdig c (List.mem_cons_self c cs))
      simp only [formatLoop, Nat.lt_irrefl, false_and, if_false, List.head?_cons]
      intro h
      exact hc (Option.some.inj h)
  · obtain ⟨pre, hpre⟩ := formatLoop_append_singleton l.length l.dropLast (l.getLast hne) 0
    rw [List.dropLast_append_getLast hne] at hpre
    rw [hpre, List.getLast?_append, List.getLast?_singleton]
    intro h
    have hlast : l.getLast hne = ',' := by simpa using h
    exact ne_comma_of_isDigit _ (hdig _ (List.getLast_mem hne)) hlast
  · intro h64
    have h20 := hlen64 h64
    obtain ⟨hw, hc⟩ := withCommas_length _ hgroups
    rw [concatGroups_chunks3 _ hdrop, List.length_drop] at hc
    rw [hloop, List.length_append, htake, hw]
    omega

/-- Witness for `formatNumberWithCommas_groups`: the largest 64-bit number and
two small ones. -/
theorem formatNumberWithCommas_groups_witness :
    formatNumberWithCommas 18446744073709551615 = "18,446,744,073,709,551,615"
      ∧ formatNumberWithCommas 1000 = "1,000"
      ∧ formatNumberWithCommas 0 = "0"
      ∧ (formatNumberWithCommas 18446744073709551615).data.length ≤ 26 :=
  ⟨by decide, by decide, by decide,
   (formatNumberWithCommas_groups 18446744073709551615).2.2.2.2.2 (by decide)⟩

/-! ## isWholeNumber and isStringEmpty -/

/-- C22: evaluation of `isWholeNumber`. The strings "0" and "" are accepted
(result 1), although they do not represent a whole number more than 0: the
test is `num < 0` and nothing asks that a digit was read. "12" is accepted,
"-5" and "12a" are rejected. Because the results of `strtoll` and `strtoull`
are read as `int`, the whole numbers "2147483648", "3000000000" and
"9223372036854775807" are rejected and the negative number "-3000000000" is
accepted. -/
theorem isWholeNumber_accepts_zero :
    isWholeNumber "0" = 1 ∧ isWholeNumber "" = 1 ∧ isWholeNumber "12" = 1
      ∧ isWholeNumber "-5" = 0 ∧ isWholeNumber "12a" = 0
      ∧ isWholeNumber "2147483647" = 1 ∧ isWholeNumber "2147483648" = 0
      ∧ isWholeNumber "3000000000" = 0 ∧ isWholeNumber "9223372036854775807" = 0
      ∧ isWholeNumber "-3000000000" = 1
      ∧ isWholeNumber "81000000000000000" = 1 := by
  refine ⟨by decide, by decide, by decide, by decide, by decide, by decide, by decide,
    by decide, by decide, by decide, by decide⟩

/-- C23: evaluation of `isStringEmpty`. For the non-empty string "a", with or
without the newline that `fgets` leaves, no value is returned, and no string
makes the function return 0. The string is cut at
its first space instead of having its spaces removed: "a b" becomes "a", and
" a" becomes empty and gives 1. -/
theorem isStringEmpty_returns_no_zero :
    isStringEmpty "a" = (none, "a")
      ∧ isStringEmpty "a\n" = (none, "a")
      ∧ isStringEmpty "a b" = (none, "a")
      ∧ isStringEmpty " a" = (some 1, "")
      ∧ isStringEmpty "" = (some 1, "")
      ∧ ∀ str : String, (isStringEmpty str).1 = some 1 ∨ (isStringEmpty str).1 = none := by
  refine ⟨by decide, by decide, by decide, by decide, by decide, ?_⟩
  intro str
  unfold isStringEmpty
  dsimp only
  split_ifs
  · exact Or.inl rfl
  · exact Or.inr rfl

/-! ## The department check of addEmployee -/

/-- The flag of the loop of lines 454-464 is cleared exactly when one of the
slots read has another department identifier. -/
theorem department_id_exists_eq_false_iff (d : String) (l : List Employee) :
    department_id_exists d l = false ↔ ∃ x ∈ l, x.department_id ≠ d := by
  induction l with
  | nil => simp [department_id_exists]
  | cons a l ih =>
    by_cases h : d = a.department_id
    · have h1 : a.department_id = d := h.symm
      simp [department_id_exists, h1, ih]
    · have h1 : ¬ a.department_id = d := fun h2 => h h2.symm
      simp [department_id_exists, h, h1]

/-- The slots read by the loop are those with an index below the count. -/
theorem mem_slots_iff (s : Store) (n : Nat) (x : Employee) :
    x ∈ s.slots n ↔ ∃ i, i < n ∧ s.slot i = x := by
  simp [Store.slots]

/-- C24: after the new employee has been appended, the check of `addEmployee`
compares its `department_id` with the `department_id` of the first
`total_departments` slots of the employee array: a department is created (when
the department array has room) exactly when `total_departments` is 0 or one of
those slots has a different `department_id`; otherwise only the employee is
added. The department array is not read. -/
theorem addEmployee_department_check (s : Store) (e : Employee) (bonus_salary : Nat)
    (hid : id_exists e.id s.employees_arr = false)
    (hroom : s.total_employees < MAX_EMPLOYEES) :
    ((s.total_departments = 0
        ∨ ∃ i, i < s.total_departments
            ∧ ((s.afterAppend e).slot i).department_id ≠ e.department_id) →
      s.total_departments < MAX_DEPARTMENTS →
      addEmployee s e bonus_salary
        = some (AddOutcome.createdDepartment,
            { s.afterAppend e with
              departments_arr := s.departments_arr
                ++ [{ id := e.department_id, bonus_salary := bonus_salary }] }))
    ∧ (¬ (s.total_departments = 0
          ∨ ∃ i, i < s.total_departments
              ∧ ((s.afterAppend e).slot i).department_id ≠ e.department_id) →
      addEmployee s e bonus_salary = some (AddOutcome.addedEmployee, s.afterAppend e)) := by
  have hcap : ¬ MAX_EMPLOYEES ≤ s.total_employees := by omega
  have hflag : department_id_exists e.department_id ((s.afterAppend e).slots s.total_departments)
      = false ↔ ∃ i, i < s.total_departments
        ∧ ((s.afterAppend e).slot i).department_id ≠ e.department_id := by
    rw [department_id_exists_eq_false_iff]
    constructor
    · rintro ⟨x, hx, hne⟩
      obtain ⟨i, hi, rfl⟩ := (mem_slots_iff _ _ _).1 hx
      exact ⟨i, hi, hne⟩
    · rintro ⟨i, hi, hne⟩
      exact ⟨_, (mem_slots_iff _ _ _).2 ⟨i, hi, rfl⟩, hne⟩
  have hunfold : addEmployee s e bonus_salary =
      if department_id_exists e.department_id ((s.afterAppend e).slots s.total_departments)
          = false ∨ s.total_departments = 0 then
        if MAX_DEPARTMENTS ≤ s.total_departments then none
        else some (AddOutcome.createdDepartment,
          { s.afterAppend e with
            departments_arr := s.departments_arr
              ++ [{ id := e.department_id, bonus_salary := bonus_salary }] })
      else some (AddOutcome.addedEmployee, s.afterAppend e) := by
    simp only [addEmployee, hid, hcap, Bool.false_eq_true, if_false, Store.afterAppend]
  constructor
  · intro hcond hdep
    have hc : department_id_exists e.department_id
        ((s.afterAppend e).slots s.total_departments) = false ∨ s.total_departments = 0 := by
      rcases hcond with h0 | hex
      · exact Or.inr h0
      · exact Or.inl (hflag.2 hex)
    have hd : ¬ MAX_DEPARTMENTS ≤ s.total_departments := by omega
    rw [hunfold, if_pos hc, if_neg hd]
  · intro hcond
    have hc : ¬ (department_id_exists e.department_id
        ((s.afterAppend e).slots s.total_departments) = false ∨ s.total_departments = 0) := by
      intro h
      rcases h with hf | h0
      · exact hcond (Or.inr (hflag.1 hf))
      · exact hcond (Or.inl h0)
    rw [hunfold, if_neg hc]

/-- Witness for `addEmployee_department_check`: in `storeTwo` slot 0 of the
employee array is in department "D1", so adding "E3" of department "D2" creates
a department although "D2" is in the department array. -/
theorem addEmployee_department_check_witness :
    addEmployee storeTwo (sampleEmployee "E3" "D2") 400000
      = some (AddOutcome.createdDepartment, storeThree) :=
  ((addEmployee_department_check storeTwo (sampleEmployee "E3" "D2") 400000
    (by decide) (by decide)).1 (Or.inr ⟨0, by decide, by decide⟩) (by decide)).trans
    (by decide)

/-! ## Net salary against bonus -/

/-- C25: the net salary is not monotone in the bonus. In `storeOne`, with 12
working days, raising the bonus from 90,502 to 90,505 moves
`totalIncome_without_tax` from 10,999,999 (no tax) to 11,000,001 (tax 550,000)
and the net salary from 10,999,999 down to 10,450,001. With 17 working days,
raising the bonus from 677,094 to 677,100 moves `totalIncome_without_tax` from
15,999,999 (tax 799,999) to 16,000,004 (tax 1,600,000) and the net salary from
15,200,000 down to 14,400,004. -/
theorem calculateSalary_not_monotone :
    (∃ (s : Store) (e : Employee) (larger_bonus n1 n2 : Nat),
        e.wellFormed ∧ e.bonus < larger_bonus
        ∧ calculateSalary s e = some n1
        ∧ calculateSalary s { e with bonus := larger_bonus } = some n2
        ∧ n2 < n1)
      ∧ (bonusEmployee 12 90505 = { bonusEmployee 12 90502 with bonus := 90505 }
        ∧ totalIncome_without_tax 12290502 = 10999999 ∧ tax 10999999 = 0
        ∧ calculateSalary storeOne (bonusEmployee 12 90502) = some 10999999
        ∧ totalIncome_without_tax 12290505 = 11000001 ∧ tax 11000001 = 550000
        ∧ calculateSalary storeOne (bonusEmployee 12 90505) = some 10450001)
      ∧ (bonusEmployee 17 677100 = { bonusEmployee 17 677094 with bonus := 677100 }
        ∧ totalIncome_without_tax 17877094 = 15999999 ∧ tax 15999999 = 799999
        ∧ calculateSalary storeOne (bonusEmployee 17 677094) = some 15200000
        ∧ totalIncome_without_tax 17877100 = 16000004 ∧ tax 16000004 = 1600000
        ∧ calculateSalary storeOne (bonusEmployee 17 677100) = some 14400004) := by
  refine ⟨⟨storeOne, bonusEmployee 12 90502, 90505, 10999999, 10450001,
      by decide, by decide, by decide, by decide, by decide⟩, ?_, ?_⟩
  · refine ⟨by decide, by decide, by decide, by decide, by decide, by decide, by decide⟩
  · refine ⟨by decide, by decide, by decide, by decide, by decide, by decide, by decide⟩

end ManageEmployee
